import Mathlib

/-!
Verification of the BashBuddy daemon core (`src/bashbuddy/daemon/server.py`,
`src/bashbuddy/daemon/functions.py`, `src/bashbuddy/daemon/client.py`).

The daemon's state and handlers are shallowly embedded: Python strings become
`String` (with Python's `str` methods modelled as executable functions over
`List Char`), the Gemini remote service becomes an oracle `Nat → GenOutcome`
giving the outcome of the n-th `generate_content` call of one `ask`, the
filesystem and subprocess environment becomes an explicit `World`, and Python
exceptions become `Except String` values whose error strings echo the Python
exception text (quotes from the original messages are omitted).
-/

namespace BashBuddy

/-- Python whitespace as used by `str.strip()`: space, tab, newline, carriage
return, vertical tab, form feed. -/
def pyWsChar (c : Char) : Bool :=
  c = ' ' || c = '\t' || c = '\n' || c = '\r' || c = '\x0b' || c = '\x0c'

/-- Python `str.strip()` on a character list: drop whitespace from both ends. -/
def pyStripList (s : List Char) : List Char :=
  ((s.dropWhile pyWsChar).reverse.dropWhile pyWsChar).reverse

/-- Python `str.strip()`. -/
def pyStrip (s : String) : String := (pyStripList s.toList).asString

/-- Python `str.lower()` (modelled for the ASCII range, which is all the
daemon's cache comparisons use). -/
def pyLower (s : String) : String := (s.toList.map Char.toLower).asString

/-- `query.strip().lower()` as used by `_check_history_cache`. -/
def pyNorm (s : String) : String := pyLower (pyStrip s)

/-- Python substring test `needle in hay` on character lists. -/
def pySubList : List Char → List Char → Bool
  | needle, [] => needle.isPrefixOf ([] : List Char)
  | needle, c :: t => needle.isPrefixOf (c :: t) || pySubList needle t

/-- Python `needle in hay` for strings. -/
def pyContains (hay needle : String) : Bool := pySubList needle.toList hay.toList

/-- Python `s.startswith(p)`. -/
def pyStartsWith (s p : String) : Bool := p.toList.isPrefixOf s.toList

/-- Python `s.split("\n")` on character lists. -/
def pySplitNlList : List Char → List (List Char)
  | [] => [[]]
  | '\n' :: rest => [] :: pySplitNlList rest
  | c :: rest =>
    match pySplitNlList rest with
    | [] => [[c]]
    | h :: t => (c :: h) :: t

/-- Python `s.split("\n")`. -/
def pySplitNl (s : String) : List String := (pySplitNlList s.toList).map List.asString

/-- Python `"\n".join(xs)` on character lists. -/
def joinNlList : List (List Char) → List Char
  | [] => []
  | [x] => x
  | x :: xs => x ++ '\n' :: joinNlList xs

/-- Python `"\n".join(xs)`. -/
def pyJoinNl (xs : List String) : String := (joinNlList (xs.map String.toList)).asString

/-- Fuel-driven core of Python `s.replace(pat, rep)`: scan left to right,
replacing non-overlapping occurrences.  The fuel is the length of the scanned
list, so it never runs out. -/
def pyReplaceF (pat rep : List Char) : Nat → List Char → List Char
  | _, [] => []
  | 0, s => s
  | fuel + 1, c :: rest =>
    if pat.isPrefixOf (c :: rest) then
      rep ++ pyReplaceF pat rep fuel ((c :: rest).drop pat.length)
    else
      c :: pyReplaceF pat rep fuel rest

/-- Python `s.replace(pat, rep)` (for the non-empty patterns the daemon uses). -/
def pyReplace (s pat rep : String) : String :=
  (pyReplaceF pat.toList rep.toList s.toList.length s.toList).asString

/-- One conversation turn: `{"role": ..., "content": ...}` in `self.history`. -/
structure Turn where
  role : String
  content : String
deriving DecidableEq

/-- One recorded tool invocation: `{"name": ..., "args": ...}` appended to
`function_history` in `_handle_ask`.  Argument values are the strings Gemini
supplies for the declared string-typed parameters. -/
structure ToolCall where
  name : String
  args : List (String × String)
deriving DecidableEq

/-- The structured result dictionaries returned by `execute_function`, one
constructor per distinct dictionary shape in `functions.py`. -/
inductive FuncResult where
  | cwdResult (result : String)
  | listing (result : List String) (count : Nat) (truncated : Bool)
  | errorRes (error : String)
  | whichRes (found : Bool) (command : String)
  | manFound (command : Option String) (content : String) (truncated : Bool) (totalLines : Nat)
  | manNotFound (command : Option String) (error : String)
  | finalAnswer (command explanation : Option String)
deriving DecidableEq

/-- Outcome of the `subprocess.run(["man", ...], timeout=5)` call. -/
inductive ManOutcome where
  | completed (returncode : Int) (stdout stderr : String)
  | timedOut
  | raised (e : String)
deriving DecidableEq

/-- The ambient system state read by the tools: current directory, directory
listings (with OSError text on failure), `shutil.which` lookups, and the `man`
subprocess. -/
structure World where
  cwd : String
  listdir : String → Except String (List String)
  whichOk : String → Bool
  man : String → String → ManOutcome

/-- The `list_files` action on the `os.listdir` outcome: first 20 entries,
total count, truncation flag; an `OSError` is returned as `{"error": ...}`. -/
def listFilesResult : Except String (List String) → FuncResult
  | .ok files => .listing (files.take 20) files.length (decide (files.length > 20))
  | .error e => .errorRes e

/-- The `get_man_page` action on the `subprocess.run` outcome: exit 0 yields
the first 100 lines with truncation data; a non-zero exit yields the stripped
stderr or the `"No manual entry"` fallback; a timeout and any other exception
are caught and returned as data. -/
def manPageResult (cmd : String) : ManOutcome → FuncResult
  | .completed rc out err =>
    if rc = 0 then
      .manFound (some cmd) (pyJoinNl ((pySplitNl out).take 100))
        (decide ((pySplitNl out).length > 100)) (pySplitNl out).length
    else
      .manNotFound (some cmd)
        (if pyStrip err = "" then "No manual entry for " ++ cmd else pyStrip err)
  | .timedOut => .manNotFound (some cmd) "Command timed out"
  | .raised e => .manNotFound (some cmd) e

/-- The `check_command_exists` action: `shutil.which` on the `command`
argument.  A missing argument means Python calls `shutil.which(None)`, which
raises `TypeError` (uncaught in `execute_function`). -/
def whichResult (w : World) : Option String → Except String FuncResult
  | none => .error "TypeError: expected str, bytes or os.PathLike object, not NoneType"
  | some c => .ok (.whichRes (w.whichOk c) c)

/-- The `get_man_page` dispatch on the `command` argument: a missing argument
makes `subprocess.run` raise `TypeError`, which the handler inside the action
catches and returns as data. -/
def manResult (w : World) (sectionArg : String) : Option String → Except String FuncResult
  | none => .ok (.manNotFound none
      "TypeError: expected str, bytes or os.PathLike object, not NoneType")
  | some cmd => .ok (manPageResult cmd (w.man cmd sectionArg))

/-- `execute_function(function_name, arguments)` from `functions.py`.

An `Except.error` models a Python exception escaping the function; the only
such path is `check_command_exists` with a missing `command` argument, where
`shutil.which(None)` raises `TypeError` before any handler can catch it.  All
other failures are caught inside `execute_function` and returned as data
(`get_man_page` with a missing command catches the analogous `TypeError` from
`subprocess.run` in its own handler). -/
def executeFunction (w : World) (name : String) (args : List (String × String)) :
    Except String FuncResult :=
  if name = "get_current_directory" then
    .ok (.cwdResult w.cwd)
  else if name = "list_files" then
    .ok (listFilesResult (w.listdir ((args.lookup "path").getD ".")))
  else if name = "check_command_exists" then
    whichResult w (args.lookup "command")
  else if name = "get_man_page" then
    manResult w ((args.lookup "section").getD "") (args.lookup "command")
  else if name = "suggested_command" then
    .ok (.finalAnswer (args.lookup "command") (args.lookup "explanation"))
  else
    .ok (.errorRes ("Unknown function: " ++ name))

/-- The response dictionaries the daemon sends, one constructor per distinct
shape built in `server.py`:
* `askCommand`: `{"status": "ok", "command", "explanation", "history_length",
  "function_calls"}` (fresh structured answer; `command`/`explanation` are the
  values Gemini passed, `none` modelling Python `None` for a missing argument);
* `askCached`: `{"status": "ok", "type": "command", "command", "explanation",
  "cached": True, "history_length"}` — note: no `function_calls` key;
* `askMessage`: `{"status": "ok", "message", "history_length",
  "function_calls"}` (plain-text answer);
* `okMessage`: `{"status": "ok", "message"}` (ping/reset/status);
* `historyResp`: `{"status": "ok", "history", "count"}`;
* `error`: `{"status": "error", "message"}`. -/
inductive Response where
  | askCommand (command explanation : Option String) (historyLength : Nat)
      (functionCalls : List ToolCall)
  | askCached (command explanation : String) (historyLength : Nat)
  | askMessage (message : String) (historyLength : Nat) (functionCalls : List ToolCall)
  | okMessage (message : String)
  | historyResp (history : List Turn) (count : Nat)
  | error (message : String)
deriving DecidableEq

/-- The `"status"` field of a response dictionary. -/
def Response.status : Response → String
  | .error _ => "error"
  | _ => "ok"

/-- The `"cached"` field of a response dictionary (present, and `True`, only on
cache hits). -/
def Response.getCached : Response → Option Bool
  | .askCached _ _ _ => some true
  | _ => none

/-- Whether the response dictionary contains a `"function_calls"` key. -/
def Response.hasFunctionCalls : Response → Bool
  | .askCommand _ _ _ _ => true
  | .askMessage _ _ _ => true
  | _ => false

/-- The parse of a cached assistant turn in `_check_history_cache`: fold over
`content.split("\n")`, a line starting with `"Command:"` overwriting the
command (with every occurrence of `"Command:"` removed and the remainder
stripped), otherwise a line starting with `"Explanation:"` overwriting the
explanation likewise. -/
def parseCached (content : String) : String × String :=
  (pySplitNl content).foldl
    (fun acc line =>
      if pyStartsWith line "Command:" then (pyStrip (pyReplace line "Command:" ""), acc.2)
      else if pyStartsWith line "Explanation:" then (acc.1, pyStrip (pyReplace line "Explanation:" ""))
      else acc)
    ("", "")

/-- The full condition under which iteration `i` of the loop in
`_check_history_cache` returns: `history[i]` is a user turn whose
stripped-lowered content equals the stripped-lowered query, `history[i+1]` is
an assistant turn whose content contains both `"Command:"` and
`"Explanation:"`, and the parsed command is non-empty. -/
def qualifies (query : String) (u a : Turn) : Bool :=
  u.role == "user" && pyNorm u.content == pyNorm query &&
  a.role == "assistant" && pyContains a.content "Command:" &&
  pyContains a.content "Explanation:" && (parseCached a.content).1 != ""

/-- The scan `for i in range(len(self.history) - 1)` of `_check_history_cache`:
walk adjacent pairs in order and return the cached response built from the
first fully qualifying pair.  `fullLen` is `len(self.history)`, reported as
`history_length`. -/
def cacheScan (query : String) (fullLen : Nat) : List Turn → Option Response
  | u :: a :: rest =>
    if qualifies query u a then
      some (.askCached (parseCached a.content).1 (parseCached a.content).2 fullLen)
    else cacheScan query fullLen (a :: rest)
  | _ => none

/-- `_check_history_cache(query)`. -/
def checkHistoryCache (hist : List Turn) (query : String) : Option Response :=
  cacheScan query hist.length hist

/-- One entry of the `contents` list sent to Gemini, one constructor per shape
appended in `_handle_ask`: a bare Python string for a user history turn, a
model-role dict with a text part (history assistant turns and the recorded
text answer on retry), a model-role dict with a function-call part, a
function-role dict with a function response, and the user-role reminder dict
injected on retry. -/
inductive ContentItem where
  | userStr (s : String)
  | modelText (t : String)
  | modelCall (c : ToolCall)
  | funcResponse (name : String) (result : FuncResult)
  | userDict (t : String)
deriving DecidableEq

/-- The initial `contents` built from history in `_handle_ask`: user turns as
bare strings, assistant turns as model-role text dicts, other roles skipped. -/
def buildContents (hist : List Turn) : List ContentItem :=
  (hist.map fun t =>
    if t.role == "user" then [ContentItem.userStr t.content]
    else if t.role == "assistant" then [ContentItem.modelText t.content]
    else []).flatten

/-- The `for item in reversed(contents)` scan after the loop hits the
iteration cap, applied here to the already-reversed list.  A bare string entry
has no `.get` method, so reaching one raises `AttributeError` (modelled as
`Except.error` carrying the Python message without its quotes); a model-role
text dict ends the scan; every other dict is skipped; if the scan finishes,
`last_text` keeps its placeholder `"No response generated"`. -/
def scanLastText : List ContentItem → Except String String
  | [] => .ok "No response generated"
  | .modelText t :: _ => .ok t
  | .userStr _ :: _ => .error "AttributeError: str object has no attribute get"
  | _ :: rest => scanLastText rest

/-- Find the last text in `contents` (lines 270-276 of `server.py`). -/
def findLastText (contents : List ContentItem) : Except String String :=
  scanLastText contents.reverse

/-- The corrective reminder injected when Gemini answers with text while
`retry_count == 0`. -/
def reminderText : String :=
  "CRITICAL: You MUST call the suggested_command() function now. Do NOT respond with text. Your response above should be converted to a suggested_command(command, explanation) function call. Extract the command and explanation from your text and call the function."

/-- Outcome of one `generate_content` call: the single part inspected by
`_handle_ask` is either a function call or text; `raised` models the remote
call failing or its response being malformed (for example `candidates[0]`
raising), with the Python exception text. -/
inductive GenOutcome where
  | call (c : ToolCall)
  | text (t : String)
  | raised (e : String)

/-- The remote service, abstracted as the outcome of the n-th
`generate_content` call within one `ask`. -/
def Oracle : Type := Nat → GenOutcome

/-- Python str() of a value that may be None, as used by the f-string
`f"Command: {result['command']}\nExplanation: {result['explanation']}"`. -/
def pyStr (o : Option String) : String := o.getD "None"

/-- Result of running the orchestration loop: the response (or the Python
exception text if one escaped the loop), the history after the run, the number
of `generate_content` calls made, and the final `retry_count` (the number of
corrective reminder turns injected, since `retry_count` only ever steps from 0
to 1). -/
structure LoopOut where
  result : Except String Response
  history : List Turn
  calls : Nat
  corrective : Nat

/-- The tool-call branch of the loop body (lines 174-222 of `server.py`),
taking the already-computed `execute_function` outcome; `cont` continues the
loop with the extended `contents` and `function_history`. -/
def askLoopCall (cont : List ContentItem → List ToolCall → LoopOut) (calls : Nat)
    (contents : List ContentItem) (fh : List ToolCall) (retry : Nat) (hist : List Turn)
    (c : ToolCall) : Except String FuncResult → LoopOut
  | .error e => { result := .error e, history := hist, calls := calls + 1, corrective := retry }
  | .ok (.finalAnswer cmd expl) =>
    let hist' := hist ++
      [⟨"assistant", "Command: " ++ pyStr cmd ++ "\nExplanation: " ++ pyStr expl⟩]
    { result := .ok (.askCommand cmd expl hist'.length (fh ++ [c])),
      history := hist', calls := calls + 1, corrective := retry }
  | .ok res =>
    cont (contents ++ [.modelCall c, .funcResponse c.name res]) (fh ++ [c])

/-- The plain-text branch of the loop body (lines 224-264 of `server.py`):
retry once with the corrective reminder, else accept the text; `cont`
continues the loop with the extended `contents` and bumped `retry_count`. -/
def askLoopText (cont : List ContentItem → Nat → LoopOut) (calls : Nat)
    (contents : List ContentItem) (fh : List ToolCall) (retry : Nat) (hist : List Turn)
    (t : String) : LoopOut :=
  if retry = 0 then
    cont (contents ++ [.modelText t, .userDict reminderText]) (retry + 1)
  else
    let hist' := hist ++ [⟨"assistant", t⟩]
    { result := .ok (.askMessage t hist'.length fh),
      history := hist', calls := calls + 1, corrective := retry }

/-- The function-calling loop `for iteration in range(max_iterations)` of
`_handle_ask`, with `fuel` the remaining iterations, `calls` the count of
`generate_content` calls already made (indexing the oracle), `contents` the
conversation sent to Gemini, `fh` the `function_history`, `retry` the
`retry_count`, and `hist` the current `self.history` (already holding the new
user turn).  The function-call and plain-text branches of the loop body live
in `askLoopCall` and `askLoopText`. -/
def askLoop (w : World) (oracle : Oracle) :
    Nat → Nat → List ContentItem → List ToolCall → Nat → List Turn → LoopOut
  | 0, calls, contents, _fh, retry, hist =>
    match findLastText contents with
    | .ok lastText =>
      let hist' := hist ++ [⟨"assistant", lastText⟩]
      { result := .ok (.askMessage
          ("[Warning: Exceeded function call limit after " ++ toString _fh.length ++
            " function calls]\n\n" ++ lastText) hist'.length _fh),
        history := hist', calls := calls, corrective := retry }
    | .error e => { result := .error e, history := hist, calls := calls, corrective := retry }
  | fuel + 1, calls, contents, fh, retry, hist =>
    match oracle calls with
    | .raised e => { result := .error e, history := hist, calls := calls + 1, corrective := retry }
    | .call c =>
      askLoopCall (fun cs fs => askLoop w oracle fuel (calls + 1) cs fs retry hist)
        calls contents fh retry hist c (executeFunction w c.name c.args)
    | .text t =>
      askLoopText (fun cs r => askLoop w oracle fuel (calls + 1) cs fh r hist)
        calls contents fh retry hist t

/-- Result of `_handle_ask`: the response sent back, the history afterwards,
and the loop's call/corrective counters. -/
structure AskResult where
  response : Response
  history : List Turn
  calls : Nat
  corrective : Nat

/-- `max_iterations = 10` in `_handle_ask`. -/
def MAX_ITERATIONS : Nat := 10

/-- The non-cached path of `_handle_ask`: append the user turn, build
`contents` from history, run the loop, and convert an escaped exception into
the `status: error` response (the appended user turn stays in history). -/
def freshAsk (w : World) (oracle : Oracle) (hist : List Turn) (message : String) : AskResult :=
  let hist1 := hist ++ [⟨"user", message⟩]
  let out := askLoop w oracle MAX_ITERATIONS 0 (buildContents hist1) [] 0 hist1
  { response :=
      match out.result with
      | .ok r => r
      | .error e => .error ("Failed to generate response: " ++ e),
    history := out.history, calls := out.calls, corrective := out.corrective }

/-- `_handle_ask(message, force_fresh)`: unless `force_fresh`, a cache hit is
returned as-is (no history change, no remote call); otherwise the fresh path
runs. -/
def handleAsk (w : World) (oracle : Oracle) (hist : List Turn) (message : String)
    (forceFresh : Bool) : AskResult :=
  if forceFresh then freshAsk w oracle hist message
  else
    match checkHistoryCache hist message with
    | some r => { response := r, history := hist, calls := 0, corrective := 0 }
    | none => freshAsk w oracle hist message

/-- `_handle_reset`: clear history, return an ok message. -/
def handleReset (_hist : List Turn) : Response × List Turn :=
  (.okMessage "✓ Conversation history cleared", [])

/-- `_handle_history`: report the full history and its length, unchanged. -/
def handleHistory (hist : List Turn) : Response × List Turn :=
  (.historyResp hist hist.length, hist)

/-- The command dispatch of `_handle_request` (lines 96-109 of `server.py`),
given an already-parsed request. -/
def handleRequest (w : World) (oracle : Oracle) (hist : List Turn) (cmd message : String)
    (forceFresh : Bool) : Response × List Turn :=
  if cmd == "ask" then
    let r := handleAsk w oracle hist message forceFresh
    (r.response, r.history)
  else if cmd == "ping" then (.okMessage "pong", hist)
  else if cmd == "reset" then handleReset hist
  else if cmd == "history" then handleHistory hist
  else if cmd == "status" then (.okMessage "Daemon is running", hist)
  else (.error ("Unknown command: " ++ cmd), hist)

/-- Iteration `i` of the `_check_history_cache` scan succeeds: turns exist at
`i` and `i+1` and the pair fully qualifies. -/
def qualifiesAt (hist : List Turn) (q : String) (i : Nat) : Bool :=
  match hist[i]?, hist[i + 1]? with
  | some u, some a => qualifies q u a
  | _, _ => false

/-- A concrete system state used by the witness theorems. -/
def w0 : World :=
  { cwd := "/home/u", listdir := fun _ => .error "No such file or directory",
    whichOk := fun _ => false, man := fun _ _ => .timedOut }

/-- An oracle that always requests the non-final `get_current_directory` tool. -/
def oracleCalls : Oracle := fun _ => .call ⟨"get_current_directory", []⟩

/-- An oracle that always answers with plain text. -/
def oracleTexts : Oracle := fun _ => .text "plain answer"

/-- An oracle whose remote call always fails. -/
def oracleBoom : Oracle := fun _ => .raised "boom"

/-- The history of the spec's cache example: user turn `"list files"` followed
by an assistant turn encoding command `ls` / explanation `E`. -/
def histLs : List Turn :=
  [⟨"user", "list files"⟩, ⟨"assistant", "Command: ls\nExplanation: E"⟩]

/-- A history whose earliest user turn matching `"q"` is paired with a
plain-text assistant answer, while a later matching pair is command-shaped. -/
def histDup : List Turn :=
  [⟨"user", "q"⟩, ⟨"assistant", "no command here"⟩,
   ⟨"user", "q"⟩, ⟨"assistant", "Command: ls\nExplanation: e"⟩]

/-- A history whose only user turn matching the query is paired with a
plain-text assistant answer carrying no `"Command:"` marker. -/
def histPlain : List Turn :=
  [⟨"user", "list files"⟩, ⟨"assistant", "plain text answer"⟩]

/-!
## Message framing (C5)

`send_command` in `client.py` serializes a request with `json.dumps`, UTF-8
encodes it and appends the two-byte terminator `b"\n\n"`; `_handle_request` in
`server.py` accumulates `recv` chunks until the terminator appears in the
buffer (or the peer closes), then parses `data.decode("utf-8").strip()` with
`json.loads`.  The JSON value space is modelled for the payloads this protocol
exchanges: null, booleans, integers, strings, arrays and objects (floats are
out of scope).  `json.dumps` is modelled with its default separators
(`", "` / `": "`) and short escapes plus `\u00XX` for control characters;
non-ASCII characters are kept literal (CPython would `\uXXXX`-escape them by
default — either form is newline-free and accepted by the parser, which is
what the framing claims rest on).  Strings are `List Char`, one entry per
code point; the terminator detection `b"\n\n" in data` is faithful on UTF-8
bytes because a multi-byte sequence never contains the byte 0x0A.
-/

/-- A JSON value as exchanged by the daemon protocol. -/
inductive JValue where
  | jnull
  | jbool (b : Bool)
  | jnum (n : Int)
  | jstr (s : List Char)
  | jarr (items : List JValue)
  | jobj (members : List (List Char × JValue))

/-- Lower-case hex digit for a value below 16. -/
def hexDigit : Nat → Char
  | 0 => '0' | 1 => '1' | 2 => '2' | 3 => '3' | 4 => '4'
  | 5 => '5' | 6 => '6' | 7 => '7' | 8 => '8' | 9 => '9'
  | 10 => 'a' | 11 => 'b' | 12 => 'c' | 13 => 'd' | 14 => 'e'
  | _ => 'f'

/-- Decimal digit character. -/
def digitChar : Nat → Char
  | 0 => '0' | 1 => '1' | 2 => '2' | 3 => '3' | 4 => '4'
  | 5 => '5' | 6 => '6' | 7 => '7' | 8 => '8' | _ => '9'

/-- The escape `json.dumps` applies to one string character. -/
def escapeChar (c : Char) : List Char :=
  if c = '"' then ['\\', '"']
  else if c = '\\' then ['\\', '\\']
  else if c = '\n' then ['\\', 'n']
  else if c = '\r' then ['\\', 'r']
  else if c = '\t' then ['\\', 't']
  else if c = '\x08' then ['\\', 'b']
  else if c = '\x0c' then ['\\', 'f']
  else if c.toNat < 32 then
    ['\\', 'u', '0', '0', hexDigit (c.toNat / 16), hexDigit (c.toNat % 16)]
  else [c]

/-- A JSON string literal: quote, escaped characters, quote. -/
def dumpsStr (s : List Char) : List Char :=
  '"' :: (s.map escapeChar).flatten ++ ['"']

/-- Fuel-driven decimal digits of a natural number (most significant first).
`natDigits` supplies fuel `n + 1`, which always suffices. -/
def natDigitsF : Nat → Nat → List Char
  | 0, _ => []
  | fuel + 1, n =>
    if n < 10 then [digitChar n]
    else natDigitsF fuel (n / 10) ++ [digitChar (n % 10)]

/-- Decimal digits of a natural number. -/
def natDigits (n : Nat) : List Char := natDigitsF (n + 1) n

/-- `json.dumps` of an integer. -/
def intChars (n : Int) : List Char :=
  if n < 0 then '-' :: natDigits n.natAbs else natDigits n.natAbs

mutual

/-- `json.dumps` with default separators, on the modelled value space. -/
def dumps : JValue → List Char
  | .jnull => ['n', 'u', 'l', 'l']
  | .jbool true => ['t', 'r', 'u', 'e']
  | .jbool false => ['f', 'a', 'l', 's', 'e']
  | .jnum n => intChars n
  | .jstr s => dumpsStr s
  | .jarr items => '[' :: dumpsItems items ++ [']']
  | .jobj members => '\x7b' :: dumpsMembers members ++ ['\x7d']

/-- Array elements joined by `", "`. -/
def dumpsItems : List JValue → List Char
  | [] => []
  | [x] => dumps x
  | x :: xs => dumps x ++ ',' :: ' ' :: dumpsItems xs

/-- Object members `"key": value` joined by `", "`. -/
def dumpsMembers : List (List Char × JValue) → List Char
  | [] => []
  | [(k, v)] => dumpsStr k ++ ':' :: ' ' :: dumps v
  | (k, v) :: ms => dumpsStr k ++ ':' :: ' ' :: dumps v ++ ',' :: ' ' :: dumpsMembers ms

end

/-- JSON whitespace skipped by `json.loads`. -/
def jsonWs (c : Char) : Bool := c = ' ' || c = '\t' || c = '\n' || c = '\r'

/-- Skip JSON whitespace. -/
def skipWs (s : List Char) : List Char := s.dropWhile jsonWs

/-- ASCII decimal digit test. -/
def isDigitChar (c : Char) : Bool := 48 ≤ c.toNat && c.toNat ≤ 57

/-- Numeric value of a digit string (most significant first). -/
def digitsVal (ds : List Char) : Nat := ds.foldl (fun a c => 10 * a + (c.toNat - 48)) 0

/-- Value of one hex digit character. -/
def hexVal (c : Char) : Option Nat :=
  if 48 ≤ c.toNat ∧ c.toNat ≤ 57 then some (c.toNat - 48)
  else if 97 ≤ c.toNat ∧ c.toNat ≤ 102 then some (c.toNat - 87)
  else if 65 ≤ c.toNat ∧ c.toNat ≤ 70 then some (c.toNat - 55)
  else none

/-- Resolution of a short escape character. -/
def unescapeChar : Char → Option Char
  | 'n' => some '\n'
  | 't' => some '\t'
  | 'r' => some '\r'
  | 'b' => some '\x08'
  | 'f' => some '\x0c'
  | '/' => some '/'
  | '"' => some '"'
  | '\\' => some '\\'
  | _ => none

/-- One step of the string-body parse on the character `c`, with `cont`
continuing after an escape or ordinary character. -/
def parseStrStep (cont : List Char → Option (List Char × List Char)) (c : Char)
    (rest : List Char) : Option (List Char × List Char) :=
  if c = '"' then some ([], rest)
  else if c = '\\' then
    match rest with
    | 'u' :: h1 :: h2 :: h3 :: h4 :: rest3 =>
      match hexVal h1, hexVal h2, hexVal h3, hexVal h4 with
      | some v1, some v2, some v3, some v4 =>
        (cont rest3).map fun p =>
          (Char.ofNat (((v1 * 16 + v2) * 16 + v3) * 16 + v4) :: p.1, p.2)
      | _, _, _, _ => none
    | e :: rest2 =>
      match unescapeChar e with
      | some ch => (cont rest2).map fun p => (ch :: p.1, p.2)
      | none => none
    | [] => none
  else (cont rest).map fun p => (c :: p.1, p.2)

/-- Fuel-driven parse of the body of a JSON string after the opening quote,
returning the decoded characters and the remainder after the closing quote.
Each step consumes at least one character, so `parseStrBody` feeds it the
input length as fuel. -/
def parseStrBodyF : Nat → List Char → Option (List Char × List Char)
  | 0, _ => none
  | _ + 1, [] => none
  | fuel + 1, c :: rest => parseStrStep (parseStrBodyF fuel) c rest

/-- Parse the body of a JSON string after the opening quote. -/
def parseStrBody (s : List Char) : Option (List Char × List Char) :=
  parseStrBodyF s.length s

/-- Parse a (non-empty) negative number body after the minus sign. -/
def parseNumNeg (rest : List Char) : Option (JValue × List Char) :=
  if rest.takeWhile isDigitChar = [] then none
  else some (.jnum (-(digitsVal (rest.takeWhile isDigitChar) : Int)),
    rest.dropWhile isDigitChar)

/-- Parse a number body starting at the digit `c`. -/
def parseNumPos (c : Char) (rest : List Char) : Option (JValue × List Char) :=
  some (.jnum (digitsVal ((c :: rest).takeWhile isDigitChar) : Int),
    (c :: rest).dropWhile isDigitChar)

/-- Parse the inside of an array after `[` given an element-list continuation. -/
def parseArrTail (pitems : List Char → Option (List JValue × List Char))
    (s : List Char) : Option (JValue × List Char) :=
  match skipWs s with
  | [] => none
  | d :: r =>
    if d = ']' then some (.jarr [], r)
    else (pitems (d :: r)).map fun p => (.jarr p.1, p.2)

/-- Parse the inside of an object after `{` given a member-list continuation. -/
def parseObjTail (pmembers : List Char → Option (List (List Char × JValue) × List Char))
    (s : List Char) : Option (JValue × List Char) :=
  match skipWs s with
  | [] => none
  | d :: r =>
    if d = '\x7d' then some (.jobj [], r)
    else (pmembers (d :: r)).map fun p => (.jobj p.1, p.2)

/-- After one array element `v`, close at `]` or continue past `,` with the
rest of the element list via `recur`. -/
def parseItemsStep (recur : List Char → Option (List JValue × List Char)) (v : JValue)
    (rest : List Char) : Option (List JValue × List Char) :=
  match skipWs rest with
  | ']' :: r => some ([v], r)
  | ',' :: r =>
    match recur r with
    | none => none
    | some (vs, r2) => some (v :: vs, r2)
  | _ => none

/-- Parse `value (, value)* ]` given the value continuation `pv`; the fuel
bounds the number of elements. -/
def parseItemsF (pv : List Char → Option (JValue × List Char)) :
    Nat → List Char → Option (List JValue × List Char)
  | 0, _ => none
  | fuel + 1, s =>
    match pv s with
    | none => none
    | some (v, rest) => parseItemsStep (parseItemsF pv fuel) v rest

/-- After one object member `(k, v)`, close at the closing brace or continue
past `,` with the remaining members via `recur`. -/
def parseMembersTail (recur : List Char → Option (List (List Char × JValue) × List Char))
    (k : List Char) (v : JValue) (rest4 : List Char) :
    Option (List (List Char × JValue) × List Char) :=
  match skipWs rest4 with
  | '\x7d' :: r => some ([(k, v)], r)
  | ',' :: r =>
    match recur r with
    | none => none
    | some (ms, r2) => some ((k, v) :: ms, r2)
  | _ => none

/-- After a member key `k` and its `:`, parse the member value then the rest
of the member list. -/
def parseMembersVal (recur : List Char → Option (List (List Char × JValue) × List Char))
    (pv : List Char → Option (JValue × List Char)) (k : List Char) (rest3 : List Char) :
    Option (List (List Char × JValue) × List Char) :=
  match pv rest3 with
  | none => none
  | some (v, rest4) => parseMembersTail recur k v rest4

/-- After the opening quote of a member key, parse the key string and the
colon, then the value and remaining members. -/
def parseMembersKey (recur : List Char → Option (List (List Char × JValue) × List Char))
    (pv : List Char → Option (JValue × List Char)) (rest : List Char) :
    Option (List (List Char × JValue) × List Char) :=
  match parseStrBody rest with
  | none => none
  | some (k, rest2) =>
    match skipWs rest2 with
    | ':' :: rest3 => parseMembersVal recur pv k rest3
    | _ => none

/-- Parse `"key": value (, "key": value)* }` given the value continuation. -/
def parseMembersF (pv : List Char → Option (JValue × List Char)) :
    Nat → List Char → Option (List (List Char × JValue) × List Char)
  | 0, _ => none
  | fuel + 1, s =>
    match skipWs s with
    | '"' :: rest => parseMembersKey (parseMembersF pv fuel) pv rest
    | _ => none

/-- Dispatch of the value grammar on the first meaningful character, with the
value continuation `pv` and the element/member fuel. -/
def parseHead (pv : List Char → Option (JValue × List Char)) (fuel : Nat)
    (c : Char) (r : List Char) : Option (JValue × List Char) :=
  if c = 'n' then
    match r with
    | 'u' :: 'l' :: 'l' :: r2 => some (.jnull, r2)
    | _ => none
  else if c = 't' then
    match r with
    | 'r' :: 'u' :: 'e' :: r2 => some (.jbool true, r2)
    | _ => none
  else if c = 'f' then
    match r with
    | 'a' :: 'l' :: 's' :: 'e' :: r2 => some (.jbool false, r2)
    | _ => none
  else if c = '"' then
    (parseStrBody r).map fun p => (.jstr p.1, p.2)
  else if c = '-' then parseNumNeg r
  else if c = '[' then parseArrTail (parseItemsF pv fuel) r
  else if c = '\x7b' then parseObjTail (parseMembersF pv fuel) r
  else if isDigitChar c then parseNumPos c r
  else none

/-- One step of the recursive-descent value grammar of `json.loads`, on the
value space the protocol exchanges. -/
def parseValueF : Nat → List Char → Option (JValue × List Char)
  | 0, _ => none
  | fuel + 1, s =>
    match skipWs s with
    | [] => none
    | c :: r => parseHead (parseValueF fuel) fuel c r

/-- `json.loads` on the modelled grammar: parse one value with sufficient fuel
and require only whitespace to remain. -/
def loads (s : List Char) : Option JValue :=
  match parseValueF (s.length + 1) s with
  | some (v, rest) => if skipWs rest = [] then some v else none
  | none => none

/-- Terminator search `b"\n\n" in data`. -/
def hasTerm : List Char → Bool
  | c1 :: c2 :: rest => (c1 = '\n' && c2 = '\n') || hasTerm (c2 :: rest)
  | _ => false

/-- The `recv` accumulation loop of `_handle_request` (and `send_command`):
append chunks to the buffer until the terminator appears in it; the chunk list
ending models the peer closing the connection (an empty `recv`). -/
def recvAccum : List (List Char) → List Char → List Char
  | [], data => data
  | chunk :: rest, data =>
    if hasTerm (data ++ chunk) then data ++ chunk
    else recvAccum rest (data ++ chunk)

/-- The receive phase: accumulate, then hand the buffer to the parser exactly
when it is non-empty (`if not data: return`). -/
def deframe (chunks : List (List Char)) : Option (List Char) :=
  if recvAccum chunks [] = [] then none else some (recvAccum chunks [])

/-- The `{"command": "ping"}` request. -/
def pingReq : JValue := .jobj [("command".toList, .jstr "ping".toList)]

def headNotDigit : List Char → Bool
  | [] => true
  | c :: _ => !isDigitChar c

def goodHead (c : Char) : Bool :=
  c = 'n' || c = 't' || c = 'f' || c = '"' || c = '-' || c = '[' || c = '\x7b' ||
    isDigitChar c

mutual

def sizeV : JValue → Nat
  | .jnull => 1
  | .jbool _ => 1
  | .jnum _ => 1
  | .jstr _ => 1
  | .jarr items => sizeItems items + 1
  | .jobj ms => sizeMembers ms + 1

def sizeItems : List JValue → Nat
  | [] => 0
  | x :: xs => sizeV x + sizeItems xs + 1

def sizeMembers : List (List Char × JValue) → Nat
  | [] => 0
  | (_, v) :: ms => sizeV v + sizeMembers ms + 1

end

theorem qualifiesAt_nil (q : String) (i : Nat) : qualifiesAt [] q i = false := by
  simp [qualifiesAt]

theorem qualifiesAt_singleton (x : Turn) (q : String) (i : Nat) :
    qualifiesAt [x] q i = false := by
  cases i <;> simp [qualifiesAt]

theorem qualifiesAt_cons_succ (x : Turn) (xs : List Turn) (q : String) (i : Nat) :
    qualifiesAt (x :: xs) q (i + 1) = qualifiesAt xs q i := by
  simp [qualifiesAt]

theorem qualifiesAt_cons_cons_zero (u a : Turn) (rest : List Turn) (q : String) :
    qualifiesAt (u :: a :: rest) q 0 = qualifies q u a := by
  simp [qualifiesAt]

/-- The cache scan misses exactly when no iteration of its loop qualifies. -/
theorem cacheScan_eq_none_iff (q : String) (L : Nat) :
    ∀ hist : List Turn, cacheScan q L hist = none ↔ ∀ i, qualifiesAt hist q i = false
  | [] => by
    constructor
    · intro _ i; exact qualifiesAt_nil q i
    · intro _; rfl
  | [x] => by
    constructor
    · intro _ i; exact qualifiesAt_singleton x q i
    · intro _; rfl
  | u :: a :: rest => by
    constructor
    · intro h i
      rw [cacheScan] at h
      by_cases hq : qualifies q u a
      · simp [hq] at h
      · simp [hq] at h
        match i with
        | 0 => simpa [qualifiesAt_cons_cons_zero] using hq
        | i + 1 =>
          rw [qualifiesAt_cons_succ]
          exact ((cacheScan_eq_none_iff q L (a :: rest)).mp h) i
    · intro h
      rw [cacheScan]
      have hq : qualifies q u a = false := by
        simpa [qualifiesAt_cons_cons_zero] using h 0
      simp [hq]
      exact (cacheScan_eq_none_iff q L (a :: rest)).mpr fun i => by
        simpa [qualifiesAt_cons_succ] using h (i + 1)

/-- The cache scan returns the hit built from the earliest fully qualifying
pair. -/
theorem cacheScan_found (q : String) (L : Nat) :
    ∀ (hist : List Turn) (i : Nat) (a : Turn), qualifiesAt hist q i = true →
      (∀ j, j < i → qualifiesAt hist q j = false) → hist[i + 1]? = some a →
      cacheScan q L hist =
        some (.askCached (parseCached a.content).1 (parseCached a.content).2 L)
  | [], i, a => by simp [qualifiesAt_nil]
  | [x], i, a => by simp [qualifiesAt_singleton]
  | u :: b :: rest, 0, a => by
    intro h1 _ h3
    simp at h3
    subst h3
    rw [qualifiesAt_cons_cons_zero] at h1
    rw [cacheScan]
    simp [h1]
  | u :: b :: rest, i + 1, a => by
    intro h1 h2 h3
    have h0 : qualifies q u b = false := by
      simpa [qualifiesAt_cons_cons_zero] using h2 0 (Nat.succ_pos i)
    rw [cacheScan]
    simp [h0]
    exact cacheScan_found q L (b :: rest) i a
      (by simpa [qualifiesAt_cons_succ] using h1)
      (fun j hj => by simpa [qualifiesAt_cons_succ] using h2 (j + 1) (by omega))
      (by simpa using h3)

/-- A qualifying iteration always points strictly before the final turn: the
final turn of history is never matched as the user side of a cached pair. -/
theorem qualifiesAt_lt_length (hist : List Turn) (q : String) (i : Nat)
    (h : qualifiesAt hist q i = true) : i + 1 < hist.length := by
  unfold qualifiesAt at h
  cases hu : hist[i]? with
  | none => rw [hu] at h; simp at h
  | some u =>
    cases ha : hist[i + 1]? with
    | none => rw [hu, ha] at h; simp at h
    | some a => exact (List.getElem?_eq_some.mp ha).1

/-- A qualifying pair forces a non-empty parsed command. -/
theorem qualifiesAt_command_ne (hist : List Turn) (q : String) (i : Nat) (a : Turn)
    (h : qualifiesAt hist q i = true) (ha : hist[i + 1]? = some a) :
    (parseCached a.content).1 ≠ "" := by
  rw [qualifiesAt] at h
  cases hu : hist[i]? with
  | none => rw [hu] at h; simp at h
  | some u =>
    rw [hu, ha] at h
    unfold qualifies at h
    simp only [Bool.and_eq_true, bne_iff_ne] at h
    exact h.2

/-- Appending a user turn at the end of history adds no qualifying pair: the
appended turn can only appear as the assistant side of the new final pair, and
its role is not `"assistant"`. -/
theorem cacheScan_append_user (q : String) (L L' : Nat) :
    ∀ (xs : List Turn) (t : Turn), t.role = "user" → cacheScan q L xs = none →
      cacheScan q L' (xs ++ [t]) = none
  | [], t => by intro _ _; rfl
  | [x], t => by
    intro ht _
    have hq : qualifies q x t = false := by
      unfold qualifies
      rw [ht]
      simp
    show cacheScan q L' [x, t] = none
    rw [cacheScan, hq]
    rfl
  | u :: a :: rest, t => by
    intro ht h
    rw [cacheScan] at h
    by_cases hq : qualifies q u a
    · simp [hq] at h
    · simp [hq] at h
      rw [List.cons_append, List.cons_append, cacheScan]
      simp [hq]
      rw [← List.cons_append]
      exact cacheScan_append_user q L L' (a :: rest) t ht h

theorem askLoop_zero_ok (w : World) (oracle : Oracle) (calls : Nat)
    (contents : List ContentItem) (fh : List ToolCall) (retry : Nat) (hist : List Turn)
    (t : String) (hfind : findLastText contents = .ok t) :
    askLoop w oracle 0 calls contents fh retry hist =
      { result := .ok (.askMessage
          ("[Warning: Exceeded function call limit after " ++ toString fh.length ++
            " function calls]\n\n" ++ t)
          (hist ++ [(⟨"assistant", t⟩ : Turn)]).length fh),
        history := hist ++ [(⟨"assistant", t⟩ : Turn)],
        calls := calls, corrective := retry } := by
  rw [askLoop, hfind]

theorem askLoop_zero_error (w : World) (oracle : Oracle) (calls : Nat)
    (contents : List ContentItem) (fh : List ToolCall) (retry : Nat) (hist : List Turn)
    (e : String) (hfind : findLastText contents = .error e) :
    askLoop w oracle 0 calls contents fh retry hist =
      { result := .error e, history := hist, calls := calls, corrective := retry } := by
  rw [askLoop, hfind]

theorem askLoop_succ_raised (w : World) (oracle : Oracle) (fuel calls : Nat)
    (contents : List ContentItem) (fh : List ToolCall) (retry : Nat) (hist : List Turn)
    (e : String) (ho : oracle calls = .raised e) :
    askLoop w oracle (fuel + 1) calls contents fh retry hist =
      { result := .error e, history := hist, calls := calls + 1, corrective := retry } := by
  rw [askLoop, ho]

theorem askLoop_succ_call (w : World) (oracle : Oracle) (fuel calls : Nat)
    (contents : List ContentItem) (fh : List ToolCall) (retry : Nat) (hist : List Turn)
    (c : ToolCall) (ho : oracle calls = .call c) :
    askLoop w oracle (fuel + 1) calls contents fh retry hist =
      askLoopCall (fun cs fs => askLoop w oracle fuel (calls + 1) cs fs retry hist)
        calls contents fh retry hist c (executeFunction w c.name c.args) := by
  rw [askLoop, ho]

theorem askLoop_succ_text (w : World) (oracle : Oracle) (fuel calls : Nat)
    (contents : List ContentItem) (fh : List ToolCall) (retry : Nat) (hist : List Turn)
    (t : String) (ho : oracle calls = .text t) :
    askLoop w oracle (fuel + 1) calls contents fh retry hist =
      askLoopText (fun cs r => askLoop w oracle fuel (calls + 1) cs fh r hist)
        calls contents fh retry hist t := by
  rw [askLoop, ho]

theorem askLoopCall_error (cont : List ContentItem → List ToolCall → LoopOut) (calls : Nat)
    (contents : List ContentItem) (fh : List ToolCall) (retry : Nat) (hist : List Turn)
    (c : ToolCall) (e : String) :
    askLoopCall cont calls contents fh retry hist c (.error e) =
      { result := .error e, history := hist, calls := calls + 1, corrective := retry } := rfl

theorem askLoopCall_final (cont : List ContentItem → List ToolCall → LoopOut) (calls : Nat)
    (contents : List ContentItem) (fh : List ToolCall) (retry : Nat) (hist : List Turn)
    (c : ToolCall) (cmd expl : Option String) :
    askLoopCall cont calls contents fh retry hist c (.ok (.finalAnswer cmd expl)) =
      { result := .ok (.askCommand cmd expl
          (hist ++ [(⟨"assistant",
            "Command: " ++ pyStr cmd ++ "\nExplanation: " ++ pyStr expl⟩ : Turn)]).length
          (fh ++ [c])),
        history := hist ++ [(⟨"assistant",
          "Command: " ++ pyStr cmd ++ "\nExplanation: " ++ pyStr expl⟩ : Turn)],
        calls := calls + 1, corrective := retry } := rfl

theorem askLoop_succ_text_retry (w : World) (oracle : Oracle) (fuel calls : Nat)
    (contents : List ContentItem) (fh : List ToolCall) (hist : List Turn)
    (t : String) (ho : oracle calls = .text t) :
    askLoop w oracle (fuel + 1) calls contents fh 0 hist =
      askLoop w oracle fuel (calls + 1)
        (contents ++ [.modelText t, .userDict reminderText]) fh (0 + 1) hist := by
  rw [askLoop, ho]
  rfl

theorem askLoop_succ_text_accept (w : World) (oracle : Oracle) (fuel calls : Nat)
    (contents : List ContentItem) (fh : List ToolCall) (retry : Nat) (hist : List Turn)
    (t : String) (ho : oracle calls = .text t) (hr : retry ≠ 0) :
    askLoop w oracle (fuel + 1) calls contents fh retry hist =
      { result := .ok (.askMessage t (hist ++ [(⟨"assistant", t⟩ : Turn)]).length fh),
        history := hist ++ [(⟨"assistant", t⟩ : Turn)],
        calls := calls + 1, corrective := retry } := by
  rw [askLoop, ho]
  show askLoopText (fun cs r => askLoop w oracle fuel (calls + 1) cs fh r hist)
    calls contents fh retry hist t = _
  rw [askLoopText, if_neg hr]

/-- Invariant of one run of the orchestration loop: a successful result is an
`askCommand` or `askMessage` response and appends exactly one assistant turn;
an escaped exception leaves history untouched; and `retry_count` (hence the
number of corrective injections) never exceeds 1. -/
theorem askLoop_invariant (w : World) (oracle : Oracle) :
    ∀ (fuel calls : Nat) (contents : List ContentItem) (fh : List ToolCall)
      (retry : Nat) (hist : List Turn),
      (∀ r, (askLoop w oracle fuel calls contents fh retry hist).result = .ok r →
        (((∃ cm ex n f, r = .askCommand cm ex n f) ∨ (∃ m n f, r = .askMessage m n f)) ∧
          ∃ c, (askLoop w oracle fuel calls contents fh retry hist).history =
            hist ++ [⟨"assistant", c⟩])) ∧
      (∀ e, (askLoop w oracle fuel calls contents fh retry hist).result = .error e →
        (askLoop w oracle fuel calls contents fh retry hist).history = hist) ∧
      ((askLoop w oracle fuel calls contents fh retry hist).corrective ≤ max retry 1) := by
  intro fuel
  induction fuel with
  | zero =>
    intro calls contents fh retry hist
    cases hfind : findLastText contents with
    | ok t =>
      rw [askLoop_zero_ok w oracle calls contents fh retry hist t hfind]
      refine ⟨fun r hr => ?_, fun e he => by simp at he, le_max_left retry 1⟩
      simp only [Except.ok.injEq] at hr
      subst hr
      exact ⟨Or.inr ⟨_, _, _, rfl⟩, t, rfl⟩
    | error e =>
      rw [askLoop_zero_error w oracle calls contents fh retry hist e hfind]
      exact ⟨fun r hr => by simp at hr, fun e' he => rfl, le_max_left retry 1⟩
  | succ fuel ih =>
    intro calls contents fh retry hist
    cases ho : oracle calls with
    | raised e =>
      rw [askLoop_succ_raised w oracle fuel calls contents fh retry hist e ho]
      exact ⟨fun r hr => by simp at hr, fun e' he => rfl, le_max_left retry 1⟩
    | call c =>
      rw [askLoop_succ_call w oracle fuel calls contents fh retry hist c ho]
      cases hexec : executeFunction w c.name c.args with
      | error e =>
        rw [askLoopCall_error]
        exact ⟨fun r hr => by simp at hr, fun e' he => rfl, le_max_left retry 1⟩
      | ok res =>
        cases res with
        | finalAnswer cmd expl =>
          rw [askLoopCall_final]
          refine ⟨fun r hr => ?_, fun e he => by simp at he, le_max_left retry 1⟩
          simp only [Except.ok.injEq] at hr
          subst hr
          exact ⟨Or.inl ⟨_, _, _, _, rfl⟩, _, rfl⟩
        | cwdResult s => exact ih _ _ _ _ _
        | listing a b cc => exact ih _ _ _ _ _
        | errorRes a => exact ih _ _ _ _ _
        | whichRes a b => exact ih _ _ _ _ _
        | manFound a b cc d => exact ih _ _ _ _ _
        | manNotFound a b => exact ih _ _ _ _ _
    | text t =>
      rw [askLoop_succ_text w oracle fuel calls contents fh retry hist t ho]
      by_cases hretry : retry = 0
      · subst hretry
        rw [askLoopText, if_pos rfl]
        have h := ih (calls + 1) (contents ++ [.modelText t, .userDict reminderText]) fh
          (0 + 1) hist
        exact ⟨h.1, h.2.1, le_trans h.2.2 (by omega)⟩
      · rw [askLoopText, if_neg hretry]
        refine ⟨fun r hr => ?_, fun e he => by simp at he, le_max_left retry 1⟩
        simp only [Except.ok.injEq] at hr
        subst hr
        exact ⟨Or.inr ⟨_, _, _, rfl⟩, _, rfl⟩

theorem qualifiesAt_pair (hist : List Turn) (q : String) (i : Nat)
    (h : qualifiesAt hist q i = true) :
    ∃ u a, hist[i]? = some u ∧ hist[i + 1]? = some a ∧ qualifies q u a = true := by
  unfold qualifiesAt at h
  cases hu : hist[i]? with
  | none => rw [hu] at h; simp at h
  | some u =>
    cases ha : hist[i + 1]? with
    | none => rw [hu, ha] at h; simp at h
    | some a => rw [hu, ha] at h; exact ⟨u, a, rfl, rfl, h⟩

/-- Every cache hit is an `askCached` response with a non-empty command. -/
theorem cacheScan_shape (q : String) (L : Nat) :
    ∀ (hist : List Turn) (r : Response), cacheScan q L hist = some r →
      ∃ cm ex, cm ≠ "" ∧ r = .askCached cm ex L
  | [], r => by
    intro h
    rw [show cacheScan q L ([] : List Turn) = none from rfl] at h
    cases h
  | [x], r => by
    intro h
    rw [show cacheScan q L [x] = none from rfl] at h
    cases h
  | u :: a :: rest, r => by
    intro h
    rw [cacheScan] at h
    by_cases hq : qualifies q u a
    · rw [if_pos hq] at h
      injection h with h
      refine ⟨_, _, ?_, h.symm⟩
      unfold qualifies at hq
      simp only [Bool.and_eq_true, bne_iff_ne] at hq
      exact hq.2
    · rw [if_neg hq] at h
      exact cacheScan_shape q L (a :: rest) r h

theorem handleAsk_not_cached (w : World) (oracle : Oracle) (hist : List Turn) (q : String)
    (h : checkHistoryCache hist q = none) :
    handleAsk w oracle hist q false = freshAsk w oracle hist q := by
  unfold handleAsk
  rw [h]
  rfl

theorem handleAsk_cached (w : World) (oracle : Oracle) (hist : List Turn) (q : String)
    (r : Response) (h : checkHistoryCache hist q = some r) :
    handleAsk w oracle hist q false = ⟨r, hist, 0, 0⟩ := by
  unfold handleAsk
  rw [h]
  rfl

theorem handleAsk_force_fresh (w : World) (oracle : Oracle) (hist : List Turn) (q : String) :
    handleAsk w oracle hist q true = freshAsk w oracle hist q := rfl

/-- Properties of every fresh (non-cached) ask: the response never carries a
`cached` marker, at most one corrective turn is injected, a `status: ok`
response is an `askCommand`/`askMessage` and history gains exactly the
user/assistant pair, and a `status: error` response leaves exactly the user
turn appended. -/
theorem freshAsk_props (w : World) (oracle : Oracle) (hist : List Turn) (q : String) :
    (freshAsk w oracle hist q).response.getCached = none ∧
    (freshAsk w oracle hist q).corrective ≤ 1 ∧
    ((freshAsk w oracle hist q).response.status = "ok" →
      (((∃ cm ex n f, (freshAsk w oracle hist q).response = .askCommand cm ex n f) ∨
        (∃ m n f, (freshAsk w oracle hist q).response = .askMessage m n f)) ∧
        ∃ c, (freshAsk w oracle hist q).history =
          hist ++ [⟨"user", q⟩, ⟨"assistant", c⟩])) ∧
    ((freshAsk w oracle hist q).response.status = "error" →
      (freshAsk w oracle hist q).history = hist ++ [⟨"user", q⟩]) := by
  obtain ⟨h1, h2, h3⟩ := askLoop_invariant w oracle MAX_ITERATIONS 0
    (buildContents (hist ++ [⟨"user", q⟩])) [] 0 (hist ++ [⟨"user", q⟩])
  have hhist : (freshAsk w oracle hist q).history =
      (askLoop w oracle MAX_ITERATIONS 0 (buildContents (hist ++ [⟨"user", q⟩])) [] 0
        (hist ++ [⟨"user", q⟩])).history := rfl
  have hcorr : (freshAsk w oracle hist q).corrective =
      (askLoop w oracle MAX_ITERATIONS 0 (buildContents (hist ++ [⟨"user", q⟩])) [] 0
        (hist ++ [⟨"user", q⟩])).corrective := rfl
  have hresp : (freshAsk w oracle hist q).response =
      match (askLoop w oracle MAX_ITERATIONS 0 (buildContents (hist ++ [⟨"user", q⟩])) [] 0
        (hist ++ [⟨"user", q⟩])).result with
      | .ok r => r
      | .error e => .error ("Failed to generate response: " ++ e) := rfl
  cases hres : (askLoop w oracle MAX_ITERATIONS 0 (buildContents (hist ++ [⟨"user", q⟩])) [] 0
      (hist ++ [⟨"user", q⟩])).result with
  | ok r =>
    obtain ⟨hshape, c, hh⟩ := h1 r hres
    have hr2 : (freshAsk w oracle hist q).response = r := by rw [hresp, hres]
    refine ⟨?_, ?_, fun _ => ⟨?_, ?_⟩, fun hst => ?_⟩
    · rw [hr2]
      rcases hshape with ⟨cm, ex, n, f, rfl⟩ | ⟨m, n, f, rfl⟩ <;> rfl
    · rw [hcorr]; simpa using h3
    · rw [hr2]; exact hshape
    · exact ⟨c, by rw [hhist, hh]; simp⟩
    · rw [hr2] at hst
      rcases hshape with ⟨cm, ex, n, f, rfl⟩ | ⟨m, n, f, rfl⟩ <;> simp [Response.status] at hst
  | error e =>
    have hr2 : (freshAsk w oracle hist q).response =
        .error ("Failed to generate response: " ++ e) := by rw [hresp, hres]
    refine ⟨by rw [hr2]; rfl, by rw [hcorr]; simpa using h3, fun hst => ?_, fun _ => ?_⟩
    · rw [hr2] at hst; simp [Response.status] at hst
    · rw [hhist, h2 e hres]

example : checkHistoryCache histLs "LIST FILES" = some (.askCached "ls" "E" 2) := rfl

example : handleAsk w0 oracleBoom histLs "LIST FILES" false =
    ⟨.askCached "ls" "E" 2, histLs, 0, 0⟩ := rfl

example : handleAsk w0 oracleCalls [] "q" false =
    ⟨.error "Failed to generate response: AttributeError: str object has no attribute get",
      [⟨"user", "q"⟩], 10, 0⟩ := rfl

example : handleAsk w0 oracleTexts [] "q" false =
    ⟨.askMessage "plain answer" 2 [], [⟨"user", "q"⟩, ⟨"assistant", "plain answer"⟩], 2, 1⟩ := rfl

example : handleAsk w0 oracleBoom [] "q" false =
    ⟨.error "Failed to generate response: boom", [⟨"user", "q"⟩], 1, 0⟩ := rfl

/-- Counterexample to C1 as stated: in `histPlain` the prior user turn
`"list files"` matches the trimmed, case-folded query `"LIST FILES"`, yet the
ask is not served from cache — the paired assistant answer has no
`"Command:"`/`"Explanation:"` markers, so `_check_history_cache` falls through
and a fresh orchestration runs: the remote service is contacted (2 calls here)
and a fresh turn pair is appended to history. -/
theorem C1_counterexample :
    histPlain[0]? = some ⟨"user", "list files"⟩ ∧
    pyNorm "list files" = pyNorm "LIST FILES" ∧
    checkHistoryCache histPlain "LIST FILES" = none ∧
    (handleAsk w0 oracleTexts histPlain "LIST FILES" false).response.getCached = none ∧
    (handleAsk w0 oracleTexts histPlain "LIST FILES" false).calls = 2 ∧
    (handleAsk w0 oracleTexts histPlain "LIST FILES" false).history =
      histPlain ++ [⟨"user", "LIST FILES"⟩, ⟨"assistant", "plain answer"⟩] :=
  ⟨rfl, rfl, rfl, rfl, rfl, rfl⟩

/-- C1 (amended): cache correctness of `ask`.  A normalized-matching prior
user turn alone does not suffice for a cached return: the lookup serves a hit
exactly when some scan iteration fully qualifies (matching user turn whose
paired assistant turn contains `"Command:"` and `"Explanation:"` and parses to
a non-empty command).  When some iteration qualifies, a non-force-fresh ask
returns the cached parse of the earliest qualifying pair with `cached: true`,
leaves history untouched and makes no remote call; when no iteration
qualifies, the ask is exactly the fresh orchestration; and a force-fresh ask
bypasses the lookup and never returns a `cached` marker. -/
theorem C1_cache_correctness (w : World) (oracle : Oracle) (hist : List Turn) (q : String) :
    ((∃ i, qualifiesAt hist q i = true) →
      ∃ i a, qualifiesAt hist q i = true ∧ (∀ j, j < i → qualifiesAt hist q j = false) ∧
        hist[i + 1]? = some a ∧ (parseCached a.content).1 ≠ "" ∧
        handleAsk w oracle hist q false =
          ⟨.askCached (parseCached a.content).1 (parseCached a.content).2 hist.length,
            hist, 0, 0⟩) ∧
    ((∀ i, qualifiesAt hist q i = false) →
      handleAsk w oracle hist q false = freshAsk w oracle hist q) ∧
    (handleAsk w oracle hist q true).response.getCached = none := by
  refine ⟨fun h => ?_, fun h => ?_, ?_⟩
  · have hi : qualifiesAt hist q (Nat.find h) = true := Nat.find_spec h
    have hmin : ∀ j, j < Nat.find h → qualifiesAt hist q j = false := fun j hj => by
      simpa using Nat.find_min h hj
    obtain ⟨u, a, hu, ha, hq⟩ := qualifiesAt_pair hist q (Nat.find h) hi
    refine ⟨Nat.find h, a, hi, hmin, ha, qualifiesAt_command_ne hist q _ a hi ha, ?_⟩
    exact handleAsk_cached w oracle hist q _ (cacheScan_found q hist.length hist _ a hi hmin ha)
  · exact handleAsk_not_cached w oracle hist q
      ((cacheScan_eq_none_iff q hist.length hist).2 h)
  · rw [handleAsk_force_fresh]
    exact (freshAsk_props w oracle hist q).1

/-- Witness for C1 at the spec's example: history `user "list files"` /
`assistant "Command: ls\nExplanation: E"`, query `"LIST FILES"`. -/
theorem C1_witness :
    (∃ i a, qualifiesAt histLs "LIST FILES" i = true ∧
      (∀ j, j < i → qualifiesAt histLs "LIST FILES" j = false) ∧
      histLs[i + 1]? = some a ∧ (parseCached a.content).1 ≠ "" ∧
      handleAsk w0 oracleBoom histLs "LIST FILES" false =
        ⟨.askCached (parseCached a.content).1 (parseCached a.content).2 histLs.length,
          histLs, 0, 0⟩) ∧
    (handleAsk w0 oracleBoom histLs "LIST FILES" true).response.getCached = none :=
  ⟨(C1_cache_correctness w0 oracleBoom histLs "LIST FILES").1 ⟨0, by decide⟩,
    (C1_cache_correctness w0 oracleBoom histLs "LIST FILES").2.2⟩

/-- C2: retry-once policy.  Within one ask's orchestration loop at most one
corrective context turn is ever injected; and when the remote service answers
with plain text on both of the first two calls, the second text is accepted as
the final `{message, function_calls}` answer after exactly one corrective
injection and exactly two remote calls — no third corrective attempt occurs. -/
theorem C2_retry_once (w : World) (oracle : Oracle) (hist : List Turn) (q : String) :
    (∀ ff, (handleAsk w oracle hist q ff).corrective ≤ 1) ∧
    (∀ t1 t2, oracle 0 = .text t1 → oracle 1 = .text t2 →
      checkHistoryCache hist q = none →
      (handleAsk w oracle hist q false).response =
        .askMessage t2 (hist.length + 2) [] ∧
      (handleAsk w oracle hist q false).history =
        hist ++ [⟨"user", q⟩, ⟨"assistant", t2⟩] ∧
      (handleAsk w oracle hist q false).calls = 2 ∧
      (handleAsk w oracle hist q false).corrective = 1) := by
  constructor
  · intro ff
    cases ff with
    | true =>
      rw [handleAsk_force_fresh]
      exact (freshAsk_props w oracle hist q).2.1
    | false =>
      cases hc : checkHistoryCache hist q with
      | some r =>
        rw [handleAsk_cached w oracle hist q r hc]
        exact Nat.zero_le 1
      | none =>
        rw [handleAsk_not_cached w oracle hist q hc]
        exact (freshAsk_props w oracle hist q).2.1
  · intro t1 t2 h0 h1 hc
    rw [handleAsk_not_cached w oracle hist q hc]
    have hloop : askLoop w oracle MAX_ITERATIONS 0
        (buildContents (hist ++ [⟨"user", q⟩])) [] 0 (hist ++ [⟨"user", q⟩]) =
        { result := .ok (.askMessage t2
            ((hist ++ [(⟨"user", q⟩ : Turn)]) ++ [(⟨"assistant", t2⟩ : Turn)]).length []),
          history := (hist ++ [(⟨"user", q⟩ : Turn)]) ++ [(⟨"assistant", t2⟩ : Turn)],
          calls := 1 + 1, corrective := 1 } := by
      rw [show MAX_ITERATIONS = 9 + 1 from rfl]
      rw [askLoop_succ_text_retry w oracle 9 0
        (buildContents (hist ++ [(⟨"user", q⟩ : Turn)])) []
        (hist ++ [(⟨"user", q⟩ : Turn)]) t1 h0]
      rw [show (9 : Nat) = 8 + 1 from rfl]
      rw [askLoop_succ_text_accept w oracle 8 (0 + 1)
        (buildContents (hist ++ [(⟨"user", q⟩ : Turn)]) ++
          [ContentItem.modelText t1, ContentItem.userDict reminderText]) []
        (0 + 1) (hist ++ [(⟨"user", q⟩ : Turn)]) t2 h1 (by omega)]
    have hresp : (freshAsk w oracle hist q).response =
        match (askLoop w oracle MAX_ITERATIONS 0
          (buildContents (hist ++ [⟨"user", q⟩])) [] 0 (hist ++ [⟨"user", q⟩])).result with
        | .ok r => r
        | .error e => .error ("Failed to generate response: " ++ e) := rfl
    have hhist2 : (freshAsk w oracle hist q).history =
        (askLoop w oracle MAX_ITERATIONS 0 (buildContents (hist ++ [⟨"user", q⟩])) [] 0
          (hist ++ [⟨"user", q⟩])).history := rfl
    have hcalls : (freshAsk w oracle hist q).calls =
        (askLoop w oracle MAX_ITERATIONS 0 (buildContents (hist ++ [⟨"user", q⟩])) [] 0
          (hist ++ [⟨"user", q⟩])).calls := rfl
    have hcorr2 : (freshAsk w oracle hist q).corrective =
        (askLoop w oracle MAX_ITERATIONS 0 (buildContents (hist ++ [⟨"user", q⟩])) [] 0
          (hist ++ [⟨"user", q⟩])).corrective := rfl
    have hlen : ((hist ++ [(⟨"user", q⟩ : Turn)]) ++ [(⟨"assistant", t2⟩ : Turn)]).length =
        hist.length + 2 := by simp
    refine ⟨?_, ?_, ?_, ?_⟩
    · rw [hresp, hloop, hlen]
    · rw [hhist2, hloop]; simp
    · rw [hcalls, hloop]
    · rw [hcorr2, hloop]

/-- Witness for C2: with an oracle that always answers with plain text, an ask
on empty history accepts the second text after one corrective injection. -/
theorem C2_witness :
    (handleAsk w0 oracleTexts [] "q" false).response =
      .askMessage "plain answer" (List.length ([] : List Turn) + 2) [] ∧
    (handleAsk w0 oracleTexts [] "q" false).history =
      [] ++ [⟨"user", "q"⟩, ⟨"assistant", "plain answer"⟩] ∧
    (handleAsk w0 oracleTexts [] "q" false).calls = 2 ∧
    (handleAsk w0 oracleTexts [] "q" false).corrective = 1 :=
  (C2_retry_once w0 oracleTexts [] "q").2 "plain answer" "plain answer" rfl rfl rfl

/-- C3 (code bug): when every remote call returns a non-final tool call, the
loop does stop after exactly 10 calls, but the scan for the last plain text
then calls `.get` on the bare user string in `contents` and raises
`AttributeError`, so the ask returns `status: error` and records no assistant
turn — instead of the claimed warning-prefixed message recorded in history. -/
theorem C3_iteration_cap_bug :
    (handleAsk w0 oracleCalls [] "q" false).calls = 10 ∧
    (handleAsk w0 oracleCalls [] "q" false).response =
      .error "Failed to generate response: AttributeError: str object has no attribute get" ∧
    (handleAsk w0 oracleCalls [] "q" false).history = [⟨"user", "q"⟩] :=
  ⟨rfl, rfl, rfl⟩

/-- Counterexample to C4 as stated: a cache-served ask returns `status: ok`
yet appends no turns at all to history. -/
theorem C4_counterexample :
    (handleAsk w0 oracleBoom histLs "LIST FILES" false).response.status = "ok" ∧
    (handleAsk w0 oracleBoom histLs "LIST FILES" false).history = histLs := ⟨rfl, rfl⟩

/-- C4 (amended): every successfully completed ask that is not served from
cache appends exactly one new user turn and one new assistant turn; a
cache-served ask (the only ok response carrying `cached`) appends nothing. -/
theorem C4_turn_pairing (w : World) (oracle : Oracle) (hist : List Turn) (q : String)
    (ff : Bool) (hok : (handleAsk w oracle hist q ff).response.status = "ok") :
    ((handleAsk w oracle hist q ff).response.getCached = some true →
      (handleAsk w oracle hist q ff).history = hist) ∧
    ((handleAsk w oracle hist q ff).response.getCached = none →
      ∃ c, (handleAsk w oracle hist q ff).history =
        hist ++ [⟨"user", q⟩, ⟨"assistant", c⟩]) := by
  cases ff with
  | true =>
    rw [handleAsk_force_fresh] at hok ⊢
    obtain ⟨hg, _, hshape, _⟩ := freshAsk_props w oracle hist q
    exact ⟨fun hcc => (by rw [hg] at hcc; cases hcc), fun _ => (hshape hok).2⟩
  | false =>
    cases hc : checkHistoryCache hist q with
    | some r =>
      obtain ⟨cm, ex, hne, rfl⟩ := cacheScan_shape q hist.length hist r hc
      rw [handleAsk_cached w oracle hist q _ hc]
      refine ⟨fun _ => rfl, fun hnone => ?_⟩
      simp [Response.getCached] at hnone
    | none =>
      rw [handleAsk_not_cached w oracle hist q hc] at hok ⊢
      obtain ⟨hg, _, hshape, _⟩ := freshAsk_props w oracle hist q
      exact ⟨fun hcc => (by rw [hg] at hcc; cases hcc), fun _ => (hshape hok).2⟩

/-- Witness for C4 at a cache-served ask. -/
theorem C4_witness :
    (handleAsk w0 oracleBoom histLs "LIST FILES" false).history = histLs :=
  (C4_turn_pairing w0 oracleBoom histLs "LIST FILES" false rfl).1 rfl

theorem Response.status_ok_or_error (r : Response) :
    r.status = "ok" ∨ r.status = "error" := by
  cases r <;> first | exact Or.inl rfl | exact Or.inr rfl

/-- Counterexample to C6 as stated: a successful cached ask response carries
no `function_calls` field. -/
theorem C6_counterexample :
    (handleRequest w0 oracleBoom histLs "ask" "LIST FILES" false).1.status = "ok" ∧
    (handleRequest w0 oracleBoom histLs "ask" "LIST FILES" false).1.getCached = some true ∧
    (handleRequest w0 oracleBoom histLs "ask" "LIST FILES" false).1.hasFunctionCalls = false :=
  ⟨rfl, rfl, rfl⟩

/-- C6 (amended): every response carries `status` in `{ok, error}`, and every
successful ask response is either a fresh `{command, explanation,
history_length, function_calls}` / `{message, history_length, function_calls}`
answer — which does carry `function_calls` — or a cached `{type, command,
explanation, cached, history_length}` answer, which carries `cached: true` but
no `function_calls` field. -/
theorem C6_response_shape (w : World) (oracle : Oracle) (hist : List Turn)
    (cmd msg : String) (ff : Bool) :
    ((handleRequest w oracle hist cmd msg ff).1.status = "ok" ∨
      (handleRequest w oracle hist cmd msg ff).1.status = "error") ∧
    (cmd = "ask" → (handleRequest w oracle hist cmd msg ff).1.status = "ok" →
      (((handleRequest w oracle hist cmd msg ff).1.hasFunctionCalls = true ∧
        ((∃ cm ex n f, (handleRequest w oracle hist cmd msg ff).1 = .askCommand cm ex n f) ∨
          (∃ m n f, (handleRequest w oracle hist cmd msg ff).1 = .askMessage m n f))) ∨
        ((handleRequest w oracle hist cmd msg ff).1.hasFunctionCalls = false ∧
          (handleRequest w oracle hist cmd msg ff).1.getCached = some true ∧
          ∃ cm ex n, (handleRequest w oracle hist cmd msg ff).1 = .askCached cm ex n))) := by
  refine ⟨Response.status_ok_or_error _, fun hcmd hok => ?_⟩
  subst hcmd
  have hreq : handleRequest w oracle hist "ask" msg ff =
      ((handleAsk w oracle hist msg ff).response, (handleAsk w oracle hist msg ff).history) :=
    rfl
  rw [hreq] at hok ⊢
  cases ff with
  | true =>
    rw [handleAsk_force_fresh] at hok ⊢
    obtain ⟨_, _, hshape, _⟩ := freshAsk_props w oracle hist msg
    rcases (hshape hok).1 with ⟨cm, ex, n, f, hr⟩ | ⟨m, n, f, hr⟩
    · exact Or.inl ⟨by rw [hr]; rfl, Or.inl ⟨cm, ex, n, f, hr⟩⟩
    · exact Or.inl ⟨by rw [hr]; rfl, Or.inr ⟨m, n, f, hr⟩⟩
  | false =>
    cases hc : checkHistoryCache hist msg with
    | some r =>
      obtain ⟨cm, ex, hne, rfl⟩ := cacheScan_shape msg hist.length hist r hc
      rw [handleAsk_cached w oracle hist msg _ hc]
      exact Or.inr ⟨rfl, rfl, cm, ex, hist.length, rfl⟩
    | none =>
      rw [handleAsk_not_cached w oracle hist msg hc] at hok ⊢
      obtain ⟨_, _, hshape, _⟩ := freshAsk_props w oracle hist msg
      rcases (hshape hok).1 with ⟨cm, ex, n, f, hr⟩ | ⟨m, n, f, hr⟩
      · exact Or.inl ⟨by rw [hr]; rfl, Or.inl ⟨cm, ex, n, f, hr⟩⟩
      · exact Or.inl ⟨by rw [hr]; rfl, Or.inr ⟨m, n, f, hr⟩⟩

/-- Witness for C6 at the cached example. -/
theorem C6_witness :
    ((handleRequest w0 oracleBoom histLs "ask" "LIST FILES" false).1.hasFunctionCalls = true ∧
      ((∃ cm ex n f, (handleRequest w0 oracleBoom histLs "ask" "LIST FILES" false).1 =
          .askCommand cm ex n f) ∨
        (∃ m n f, (handleRequest w0 oracleBoom histLs "ask" "LIST FILES" false).1 =
          .askMessage m n f))) ∨
    ((handleRequest w0 oracleBoom histLs "ask" "LIST FILES" false).1.hasFunctionCalls = false ∧
      (handleRequest w0 oracleBoom histLs "ask" "LIST FILES" false).1.getCached = some true ∧
      ∃ cm ex n, (handleRequest w0 oracleBoom histLs "ask" "LIST FILES" false).1 =
        .askCached cm ex n) :=
  (C6_response_shape w0 oracleBoom histLs "ask" "LIST FILES" false).2 rfl rfl

/-- Counterexample to C7 as stated: `check_command_exists` with no `command`
argument raises `TypeError` out of `execute_function` (Python evaluates
`shutil.which(None)`), rather than returning a structured result. -/
theorem C7_counterexample :
    executeFunction w0 "check_command_exists" [] =
      .error "TypeError: expected str, bytes or os.PathLike object, not NoneType" := rfl

/-- C7 (amended): the tool executor returns a structured result for every tool
name and argument mapping except `check_command_exists` with a missing
`command` argument (the only escaping exception); unknown tool names yield an
error result identifying the unknown tool instead of aborting; and expected
failures — a missing/unreadable path, a `man` timeout — come back as error
data, never as exceptions. -/
theorem C7_executor (w : World) :
    (∀ name args, (name = "check_command_exists" → (args.lookup "command").isSome) →
      ∃ res, executeFunction w name args = .ok res) ∧
    (∀ name args e, executeFunction w name args = .error e →
      name = "check_command_exists" ∧ args.lookup "command" = none) ∧
    (∀ name args, name ∉ (["get_current_directory", "list_files", "check_command_exists",
        "get_man_page", "suggested_command"] : List String) →
      executeFunction w name args = .ok (.errorRes ("Unknown function: " ++ name))) ∧
    (∀ args e, w.listdir ((args.lookup "path").getD ".") = .error e →
      executeFunction w "list_files" args = .ok (.errorRes e)) ∧
    (∀ args cmd, args.lookup "command" = some cmd →
      w.man cmd ((args.lookup "section").getD "") = .timedOut →
      executeFunction w "get_man_page" args =
        .ok (.manNotFound (some cmd) "Command timed out")) := by
  refine ⟨fun name args hcmd => ?_, fun name args e herr => ?_, fun name args hname => ?_,
    fun args e hl => ?_, fun args cmd hc hm => ?_⟩
  · unfold executeFunction
    split_ifs with h1 h2 h3 h4 h5
    · exact ⟨_, rfl⟩
    · exact ⟨_, rfl⟩
    · obtain ⟨c, hcv⟩ := Option.isSome_iff_exists.mp (hcmd h3)
      rw [hcv]
      exact ⟨_, rfl⟩
    · cases hcm : args.lookup "command" with
      | none => exact ⟨_, rfl⟩
      | some cmd => exact ⟨_, rfl⟩
    · exact ⟨_, rfl⟩
    · exact ⟨_, rfl⟩
  · unfold executeFunction at herr
    split_ifs at herr with h1 h2 h3 h4 h5 <;>
      first
        | exact Except.noConfusion herr
        | (cases hcm : args.lookup "command" with
            | none => first
              | exact ⟨h3, rfl⟩
              | (rw [hcm, manResult] at herr; exact Except.noConfusion herr)
            | some c => first
              | (rw [hcm, whichResult] at herr; exact Except.noConfusion herr)
              | (rw [hcm, manResult] at herr; exact Except.noConfusion herr))
  · have hn : (name = "get_current_directory" → False) ∧ (name = "list_files" → False) ∧
        (name = "check_command_exists" → False) ∧ (name = "get_man_page" → False) ∧
        (name = "suggested_command" → False) := by
      simpa [not_or] using hname
    obtain ⟨n1, n2, n3, n4, n5⟩ := hn
    unfold executeFunction
    rw [if_neg n1, if_neg n2, if_neg n3, if_neg n4, if_neg n5]
  · unfold executeFunction
    rw [if_neg (by decide), if_pos rfl, hl]
    rfl
  · unfold executeFunction
    rw [if_neg (by decide), if_neg (by decide), if_neg (by decide), if_pos rfl, hc]
    show Except.ok (manPageResult cmd (w.man cmd ((args.lookup "section").getD ""))) = _
    rw [hm]
    rfl

/-- Witness for C7: a concrete unknown tool name comes back as error data, and
a concrete call with its required argument present succeeds structurally. -/
theorem C7_witness :
    executeFunction w0 "frobnicate" [] = .ok (.errorRes "Unknown function: frobnicate") :=
  (C7_executor w0).2.2.1 "frobnicate" [] (by decide)

/-- C8: orchestration-error state.  When the remote call raises on a fresh
ask, the failure is converted into a single `status: error` response, the user
turn already appended to history stays there, and the same query against the
new history still finds no cache hit (no assistant turn was recorded). -/
theorem C8_orchestration_error (w : World) (hist : List Turn) (q e : String)
    (h : checkHistoryCache hist q = none) :
    (handleAsk w (fun _ => .raised e) hist q false).response =
      .error ("Failed to generate response: " ++ e) ∧
    (handleAsk w (fun _ => .raised e) hist q false).history = hist ++ [⟨"user", q⟩] ∧
    checkHistoryCache (hist ++ [⟨"user", q⟩]) q = none := by
  rw [handleAsk_not_cached w (fun _ => .raised e) hist q h]
  have hloop : askLoop w (fun _ => .raised e) MAX_ITERATIONS 0
      (buildContents (hist ++ [⟨"user", q⟩])) [] 0 (hist ++ [⟨"user", q⟩]) =
      { result := .error e, history := hist ++ [⟨"user", q⟩], calls := 0 + 1,
        corrective := 0 } := by
    rw [show MAX_ITERATIONS = 9 + 1 from rfl]
    exact askLoop_succ_raised w (fun _ => .raised e) 9 0
      (buildContents (hist ++ [⟨"user", q⟩])) [] 0 (hist ++ [⟨"user", q⟩]) e rfl
  have hresp : (freshAsk w (fun _ => .raised e) hist q).response =
      match (askLoop w (fun _ => .raised e) MAX_ITERATIONS 0
        (buildContents (hist ++ [⟨"user", q⟩])) [] 0 (hist ++ [⟨"user", q⟩])).result with
      | .ok r => r
      | .error e => .error ("Failed to generate response: " ++ e) := rfl
  have hhist2 : (freshAsk w (fun _ => .raised e) hist q).history =
      (askLoop w (fun _ => .raised e) MAX_ITERATIONS 0
        (buildContents (hist ++ [⟨"user", q⟩])) [] 0 (hist ++ [⟨"user", q⟩])).history := rfl
  refine ⟨by rw [hresp, hloop], by rw [hhist2, hloop], ?_⟩
  exact cacheScan_append_user q hist.length (hist ++ [(⟨"user", q⟩ : Turn)]).length hist
    ⟨"user", q⟩ rfl h

/-- Witness for C8 on empty history. -/
theorem C8_witness :
    (handleAsk w0 (fun _ => .raised "boom") [] "q" false).response =
      .error "Failed to generate response: boom" ∧
    (handleAsk w0 (fun _ => .raised "boom") [] "q" false).history =
      [] ++ [⟨"user", "q"⟩] ∧
    checkHistoryCache ([] ++ [⟨"user", "q"⟩]) "q" = none :=
  C8_orchestration_error w0 [] "q" "boom" rfl

/-- C9: `reset` empties history, so a following `history` call reports an
empty sequence with count 0; `history` reports the full ordered sequence and
its length and never mutates the state. -/
theorem C9_reset_history (hist : List Turn) :
    handleHistory (handleReset hist).2 = (.historyResp [] 0, []) ∧
    (handleReset hist).1 = .okMessage "✓ Conversation history cleared" ∧
    (handleHistory hist).1 = .historyResp hist hist.length ∧
    (handleHistory hist).2 = hist :=
  ⟨rfl, rfl, rfl, rfl⟩

/-- Counterexample to C10 as stated: in `histDup` the earliest user turn
matching `"q"` (index 0) is followed by a plain-text assistant turn with no
`"Command:"` content, yet the lookup still returns a hit (built from the later
command-shaped pair). -/
theorem C10_counterexample :
    histDup[0]? = some ⟨"user", "q"⟩ ∧
    histDup[1]? = some ⟨"assistant", "no command here"⟩ ∧
    pyContains "no command here" "Command:" = false ∧
    checkHistoryCache histDup "q" = some (.askCached "ls" "e" 4) :=
  ⟨rfl, rfl, rfl, rfl⟩

/-- C10 (amended): the cache lookup returns a hit exactly when some scan
iteration fully qualifies (user turn matching the query immediately followed
by an assistant turn containing a `"Command:"` line with non-empty parsed
command and an `"Explanation:"` marker); the hit is built from the earliest
fully qualifying pair; queries whose matching pairs all carry plain-text
answers therefore miss; and a qualifying match never sits at the final
position of history. -/
theorem C10_cache_hit_characterization (hist : List Turn) (q : String) :
    (checkHistoryCache hist q = none ↔ ∀ i, qualifiesAt hist q i = false) ∧
    (∀ i a, qualifiesAt hist q i = true → (∀ j, j < i → qualifiesAt hist q j = false) →
      hist[i + 1]? = some a →
      checkHistoryCache hist q =
        some (.askCached (parseCached a.content).1 (parseCached a.content).2 hist.length) ∧
      (parseCached a.content).1 ≠ "") ∧
    (∀ i, qualifiesAt hist q i = true → i + 1 < hist.length) :=
  ⟨cacheScan_eq_none_iff q hist.length hist,
    fun i a h1 h2 h3 => ⟨cacheScan_found q hist.length hist i a h1 h2 h3,
      qualifiesAt_command_ne hist q i a h1 h3⟩,
    fun i h => qualifiesAt_lt_length hist q i h⟩

/-- Witness for C10 at `histDup`: the qualifying pair at index 2 produces the
hit even though the earlier matching pair at index 0 does not qualify. -/
theorem C10_witness :
    checkHistoryCache histDup "q" =
      some (.askCached (parseCached "Command: ls\nExplanation: e").1
        (parseCached "Command: ls\nExplanation: e").2 histDup.length) ∧
    (parseCached "Command: ls\nExplanation: e").1 ≠ "" :=
  (C10_cache_hit_characterization histDup "q").2.1 2
    ⟨"assistant", "Command: ls\nExplanation: e"⟩ (by decide) (by decide) rfl

example : (dumps pingReq).asString = "\x7b\"command\": \"ping\"\x7d" := rfl

example : loads (dumps pingReq) = some pingReq := rfl

example : loads (pyStripList (dumps pingReq ++ ['\n', '\n'])) = some pingReq := rfl

example : loads (dumps (.jarr [.jnum (-42), .jnum 0, .jstr ['a', '\n', '\x01'],
    .jbool true, .jnull, .jobj []])) =
    some (.jarr [.jnum (-42), .jnum 0, .jstr ['a', '\n', '\x01'],
      .jbool true, .jnull, .jobj []]) := rfl

example : deframe [dumps pingReq ++ ['\n', '\n']] = some (dumps pingReq ++ ['\n', '\n']) := rfl

example : hasTerm (dumps pingReq) = false := rfl

theorem digitChar_toNat : ∀ m, m < 10 → (digitChar m).toNat = 48 + m := by decide

theorem digitChar_isDigit : ∀ m, m < 10 → isDigitChar (digitChar m) = true := by decide

theorem hexVal_hexDigit : ∀ m, m < 16 → hexVal (hexDigit m) = some m := by decide

theorem isDigitChar_range (c : Char) (h : isDigitChar c = true) :
    48 ≤ c.toNat ∧ c.toNat ≤ 57 := by
  unfold isDigitChar at h
  simpa using h

theorem isDigit_not_jsonWs (c : Char) (h : isDigitChar c = true) : jsonWs c = false := by
  unfold jsonWs
  simp only [Bool.or_eq_false_iff, decide_eq_false_iff_not]
  refine ⟨⟨⟨?_, ?_⟩, ?_⟩, ?_⟩ <;>
    (rintro rfl; exact absurd (isDigitChar_range _ h) (by decide))

theorem isDigit_not_pyWs (c : Char) (h : isDigitChar c = true) : pyWsChar c = false := by
  unfold pyWsChar
  simp only [Bool.or_eq_false_iff, decide_eq_false_iff_not]
  refine ⟨⟨⟨⟨⟨?_, ?_⟩, ?_⟩, ?_⟩, ?_⟩, ?_⟩ <;>
    (rintro rfl; exact absurd (isDigitChar_range _ h) (by decide))

theorem isDigit_ne (c d : Char) (h : isDigitChar c = true) (hd : isDigitChar d = false) :
    c ≠ d := by
  rintro rfl
  rw [h] at hd
  cases hd

theorem digitsVal_append_singleton (xs : List Char) (c : Char) :
    digitsVal (xs ++ [c]) = 10 * digitsVal xs + (c.toNat - 48) := by
  unfold digitsVal
  rw [List.foldl_append]
  rfl

theorem natDigitsF_spec : ∀ fuel n, n < fuel →
    natDigitsF fuel n ≠ [] ∧ (∀ c ∈ natDigitsF fuel n, isDigitChar c = true) ∧
    digitsVal (natDigitsF fuel n) = n := by
  intro fuel
  induction fuel with
  | zero => intro n h; omega
  | succ fuel ih =>
    intro n h
    rw [natDigitsF]
    by_cases h10 : n < 10
    · rw [if_pos h10]
      refine ⟨by simp, ?_, ?_⟩
      · intro c hc
        simp at hc
        subst hc
        exact digitChar_isDigit n h10
      · show digitsVal ([] ++ [digitChar n]) = n
        rw [digitsVal_append_singleton, digitChar_toNat n h10]
        unfold digitsVal
        simp
    · rw [if_neg h10]
      have hdiv : n / 10 < fuel := by
        have := Nat.div_lt_self (by omega : 0 < n) (by omega : (1 : Nat) < 10)
        omega
      obtain ⟨hne, hdig, hval⟩ := ih (n / 10) hdiv
      have hmod : n % 10 < 10 := Nat.mod_lt n (by omega)
      refine ⟨by simp, ?_, ?_⟩
      · intro c hc
        rw [List.mem_append] at hc
        rcases hc with hc | hc
        · exact hdig c hc
        · simp at hc
          subst hc
          exact digitChar_isDigit _ hmod
      · rw [digitsVal_append_singleton, hval, digitChar_toNat _ hmod]
        omega

theorem natDigits_spec (n : Nat) :
    natDigits n ≠ [] ∧ (∀ c ∈ natDigits n, isDigitChar c = true) ∧
    digitsVal (natDigits n) = n :=
  natDigitsF_spec (n + 1) n (by omega)

theorem takeWhile_append_of_all {p : Char → Bool} :
    ∀ (xs ys : List Char), (∀ x ∈ xs, p x = true) →
      (xs ++ ys).takeWhile p = xs ++ ys.takeWhile p
  | [], ys, _ => rfl
  | x :: xs, ys, h => by
    have hx : p x = true := h x (by simp)
    simp only [List.cons_append, List.takeWhile_cons, hx, if_true]
    rw [takeWhile_append_of_all xs ys fun a ha => h a (by simp [ha])]

theorem dropWhile_append_of_all {p : Char → Bool} :
    ∀ (xs ys : List Char), (∀ x ∈ xs, p x = true) →
      (xs ++ ys).dropWhile p = ys.dropWhile p
  | [], ys, _ => rfl
  | x :: xs, ys, h => by
    have hx : p x = true := h x (by simp)
    simp only [List.cons_append, List.dropWhile_cons, hx, if_true]
    exact dropWhile_append_of_all xs ys fun a ha => h a (by simp [ha])

theorem takeWhile_eq_nil_of_head {p : Char → Bool} (ys : List Char)
    (h : ∀ c, ys.head? = some c → p c = false) : ys.takeWhile p = [] := by
  cases ys with
  | nil => rfl
  | cons y ys =>
    have := h y rfl
    simp [List.takeWhile_cons, this]

theorem dropWhile_eq_self_of_head {p : Char → Bool} (ys : List Char)
    (h : ∀ c, ys.head? = some c → p c = false) : ys.dropWhile p = ys := by
  cases ys with
  | nil => rfl
  | cons y ys =>
    have := h y rfl
    simp [List.dropWhile_cons, this]

theorem skipWs_append_allWs : ∀ PRE X, (∀ c ∈ PRE, jsonWs c = true) →
    skipWs (PRE ++ X) = skipWs X
  | [], X, _ => rfl
  | c :: PRE, X, h => by
    have hc : jsonWs c = true := h c (by simp)
    show ((c :: PRE) ++ X).dropWhile jsonWs = skipWs X
    simp only [List.cons_append, List.dropWhile_cons, hc, if_true]
    exact skipWs_append_allWs PRE X fun a ha => h a (by simp [ha])

theorem skipWs_cons_of_neg (c : Char) (X : List Char) (h : jsonWs c = false) :
    skipWs (c :: X) = c :: X := by
  simp [skipWs, List.dropWhile_cons, h]

theorem parseStrStep_esc_quote (cont : List Char → Option (List Char × List Char))
    (T : List Char) :
    parseStrStep cont '\\' ('"' :: T) = (cont T).map fun p => ('"' :: p.1, p.2) := rfl

theorem parseStrStep_esc_bs (cont : List Char → Option (List Char × List Char))
    (T : List Char) :
    parseStrStep cont '\\' ('\\' :: T) = (cont T).map fun p => ('\\' :: p.1, p.2) := rfl

theorem parseStrStep_esc_n (cont : List Char → Option (List Char × List Char))
    (T : List Char) :
    parseStrStep cont '\\' ('n' :: T) = (cont T).map fun p => ('\n' :: p.1, p.2) := rfl

theorem parseStrStep_esc_r (cont : List Char → Option (List Char × List Char))
    (T : List Char) :
    parseStrStep cont '\\' ('r' :: T) = (cont T).map fun p => ('\r' :: p.1, p.2) := rfl

theorem parseStrStep_esc_t (cont : List Char → Option (List Char × List Char))
    (T : List Char) :
    parseStrStep cont '\\' ('t' :: T) = (cont T).map fun p => ('\t' :: p.1, p.2) := rfl

theorem parseStrStep_esc_b (cont : List Char → Option (List Char × List Char))
    (T : List Char) :
    parseStrStep cont '\\' ('b' :: T) = (cont T).map fun p => ('\x08' :: p.1, p.2) := rfl

theorem parseStrStep_esc_f (cont : List Char → Option (List Char × List Char))
    (T : List Char) :
    parseStrStep cont '\\' ('f' :: T) = (cont T).map fun p => ('\x0c' :: p.1, p.2) := rfl

theorem parseStrStep_unicode (cont : List Char → Option (List Char × List Char))
    (h1 h2 h3 h4 : Char) (v1 v2 v3 v4 : Nat) (T : List Char)
    (e1 : hexVal h1 = some v1) (e2 : hexVal h2 = some v2) (e3 : hexVal h3 = some v3)
    (e4 : hexVal h4 = some v4) :
    parseStrStep cont '\\' ('u' :: h1 :: h2 :: h3 :: h4 :: T) =
      (cont T).map fun p =>
        (Char.ofNat (((v1 * 16 + v2) * 16 + v3) * 16 + v4) :: p.1, p.2) := by
  show (match hexVal h1, hexVal h2, hexVal h3, hexVal h4 with
    | some v1, some v2, some v3, some v4 =>
      (cont T).map fun p : List Char × List Char =>
        (Char.ofNat (((v1 * 16 + v2) * 16 + v3) * 16 + v4) :: p.1, p.2)
    | _, _, _, _ => none) = _
  rw [e1, e2, e3, e4]

theorem parseStrStep_plain (cont : List Char → Option (List Char × List Char))
    (c : Char) (T : List Char) (h1 : ¬(c = '"')) (h2 : ¬(c = '\\')) :
    parseStrStep cont c T = (cont T).map fun p => (c :: p.1, p.2) := by
  unfold parseStrStep
  rw [if_neg h1, if_neg h2]

/-- The escaped form of a string parses back to the string under any
sufficient fuel: the core of the framing round trip for string payloads. -/
theorem parseStrBodyF_escape : ∀ (s : List Char) (fuel : Nat) (rest : List Char),
    s.length + 1 ≤ fuel →
    parseStrBodyF fuel ((s.map escapeChar).flatten ++ '"' :: rest) = some (s, rest) := by
  intro s
  induction s with
  | nil =>
    intro fuel rest h
    obtain ⟨f, rfl⟩ : ∃ f, fuel = f + 1 := ⟨fuel - 1, by omega⟩
    simp only [List.map_nil, List.flatten_nil, List.nil_append]
    rw [parseStrBodyF]
    rfl
  | cons c s ih =>
    intro fuel rest h
    obtain ⟨f, rfl⟩ : ∃ f, fuel = f + 1 := ⟨fuel - 1, by omega⟩
    rw [show ((c :: s).map escapeChar).flatten ++ '"' :: rest =
      escapeChar c ++ ((s.map escapeChar).flatten ++ '"' :: rest) by
        simp [List.append_assoc]]
    have hf : s.length + 1 ≤ f := by simp at h; omega
    by_cases h1 : c = '"'
    · subst h1
      rw [show escapeChar '"' = ['\\', '"'] from rfl, List.cons_append, List.cons_append,
        List.nil_append, parseStrBodyF, parseStrStep_esc_quote, ih f rest hf]
      rfl
    by_cases h2 : c = '\\'
    · subst h2
      rw [show escapeChar '\\' = ['\\', '\\'] from rfl, List.cons_append, List.cons_append,
        List.nil_append, parseStrBodyF, parseStrStep_esc_bs, ih f rest hf]
      rfl
    by_cases h3 : c = '\n'
    · subst h3
      rw [show escapeChar '\n' = ['\\', 'n'] from rfl, List.cons_append, List.cons_append,
        List.nil_append, parseStrBodyF, parseStrStep_esc_n, ih f rest hf]
      rfl
    by_cases h4 : c = '\r'
    · subst h4
      rw [show escapeChar '\r' = ['\\', 'r'] from rfl, List.cons_append, List.cons_append,
        List.nil_append, parseStrBodyF, parseStrStep_esc_r, ih f rest hf]
      rfl
    by_cases h5 : c = '\t'
    · subst h5
      rw [show escapeChar '\t' = ['\\', 't'] from rfl, List.cons_append, List.cons_append,
        List.nil_append, parseStrBodyF, parseStrStep_esc_t, ih f rest hf]
      rfl
    by_cases h6 : c = '\x08'
    · subst h6
      rw [show escapeChar '\x08' = ['\\', 'b'] from rfl, List.cons_append, List.cons_append,
        List.nil_append, parseStrBodyF, parseStrStep_esc_b, ih f rest hf]
      rfl
    by_cases h7 : c = '\x0c'
    · subst h7
      rw [show escapeChar '\x0c' = ['\\', 'f'] from rfl, List.cons_append, List.cons_append,
        List.nil_append, parseStrBodyF, parseStrStep_esc_f, ih f rest hf]
      rfl
    by_cases h8 : c.toNat < 32
    · have hesc : escapeChar c = ['\\', 'u', '0', '0', hexDigit (c.toNat / 16),
          hexDigit (c.toNat % 16)] := by
        unfold escapeChar
        rw [if_neg h1, if_neg h2, if_neg h3, if_neg h4, if_neg h5, if_neg h6, if_neg h7,
          if_pos h8]
      rw [hesc]
      simp only [List.cons_append, List.nil_append]
      rw [parseStrBodyF,
        parseStrStep_unicode (parseStrBodyF f) '0' '0'
          (hexDigit (c.toNat / 16)) (hexDigit (c.toNat % 16)) 0 0
          (c.toNat / 16) (c.toNat % 16) _ rfl rfl
          (hexVal_hexDigit _ (by omega)) (hexVal_hexDigit _ (by omega)),
        ih f rest hf]
      have hval : ((0 * 16 + 0) * 16 + c.toNat / 16) * 16 + c.toNat % 16 = c.toNat := by
        omega
      simp only [Option.map_some']
      rw [hval, Char.ofNat_toNat]
    · have hesc : escapeChar c = [c] := by
        unfold escapeChar
        rw [if_neg h1, if_neg h2, if_neg h3, if_neg h4, if_neg h5, if_neg h6, if_neg h7,
          if_neg h8]
      rw [hesc]
      simp only [List.cons_append, List.nil_append]
      rw [parseStrBodyF, parseStrStep_plain (parseStrBodyF f) c _ h1 h2, ih f rest hf]
      rfl

theorem escapeChar_length (c : Char) : 1 ≤ (escapeChar c).length := by
  unfold escapeChar
  split_ifs <;> simp

theorem escape_flatten_len : ∀ s : List Char, s.length ≤ ((s.map escapeChar).flatten).length
  | [] => by simp
  | c :: s => by
    simp only [List.map_cons, List.flatten_cons, List.length_append, List.length_cons]
    have h1 := escapeChar_length c
    have h2 := escape_flatten_len s
    omega

theorem parseStrBody_escape (s rest : List Char) :
    parseStrBody ((s.map escapeChar).flatten ++ '"' :: rest) = some (s, rest) :=
  parseStrBodyF_escape s _ rest
    (by
      have := escape_flatten_len s
      simp only [List.length_append, List.length_cons]
      omega)

theorem one_le_sizeV (v : JValue) : 1 ≤ sizeV v := by
  cases v <;> simp [sizeV]

theorem sizeV_mem_items : ∀ (items : List JValue) (x : JValue), x ∈ items →
    sizeV x ≤ sizeItems items
  | i :: is, x, h => by
    rcases List.mem_cons.1 h with rfl | h2
    · simp only [sizeItems]
      omega
    · have := sizeV_mem_items is x h2
      simp only [sizeItems]
      omega

theorem sizeV_mem_members : ∀ (ms : List (List Char × JValue)) (p : List Char × JValue),
    p ∈ ms → sizeV p.2 ≤ sizeMembers ms
  | m :: ms, p, h => by
    rcases List.mem_cons.1 h with rfl | h2
    · simp only [sizeMembers]
      omega
    · have := sizeV_mem_members ms p h2
      rcases m with ⟨k, v⟩
      simp only [sizeMembers]
      omega

theorem length_le_sizeItems : ∀ items : List JValue, items.length ≤ sizeItems items
  | [] => by simp [sizeItems]
  | x :: xs => by
    have := length_le_sizeItems xs
    have := one_le_sizeV x
    simp only [List.length_cons, sizeItems]
    omega

theorem length_le_sizeMembers : ∀ ms : List (List Char × JValue),
    ms.length ≤ sizeMembers ms
  | [] => by simp [sizeMembers]
  | (k, v) :: ms => by
    have := length_le_sizeMembers ms
    have := one_le_sizeV v
    simp only [List.length_cons, sizeMembers]
    omega

theorem goodHead_not_ws (c : Char) (h : goodHead c = true) : jsonWs c = false := by
  unfold goodHead at h
  simp only [Bool.or_eq_true, decide_eq_true_eq] at h
  rcases h with ((((((rfl | rfl) | rfl) | rfl) | rfl) | rfl) | rfl) | hd
  · decide
  · decide
  · decide
  · decide
  · decide
  · decide
  · decide
  · exact isDigit_not_jsonWs c hd

theorem goodHead_ne (c : Char) (h : goodHead c = true) :
    c ≠ ']' ∧ c ≠ '\x7d' ∧ c ≠ ',' := by
  unfold goodHead at h
  simp only [Bool.or_eq_true, decide_eq_true_eq] at h
  rcases h with ((((((rfl | rfl) | rfl) | rfl) | rfl) | rfl) | rfl) | hd
  · exact ⟨by decide, by decide, by decide⟩
  · exact ⟨by decide, by decide, by decide⟩
  · exact ⟨by decide, by decide, by decide⟩
  · exact ⟨by decide, by decide, by decide⟩
  · exact ⟨by decide, by decide, by decide⟩
  · exact ⟨by decide, by decide, by decide⟩
  · exact ⟨by decide, by decide, by decide⟩
  · exact ⟨isDigit_ne c _ hd (by decide), isDigit_ne c _ hd (by decide),
      isDigit_ne c _ hd (by decide)⟩

theorem dumps_head : ∀ v : JValue, ∃ c T, dumps v = c :: T ∧ goodHead c = true := by
  intro v
  cases v with
  | jnull => exact ⟨'n', _, rfl, by decide⟩
  | jbool b =>
    cases b with
    | false => exact ⟨'f', _, rfl, by decide⟩
    | true => exact ⟨'t', _, rfl, by decide⟩
  | jnum n =>
    rw [show dumps (.jnum n) = intChars n from rfl]
    unfold intChars
    split_ifs with hneg
    · exact ⟨'-', _, rfl, by decide⟩
    · obtain ⟨hne, hdig, _⟩ := natDigits_spec n.natAbs
      cases hd : natDigits n.natAbs with
      | nil => exact absurd hd hne
      | cons c T =>
        refine ⟨c, T, rfl, ?_⟩
        have : isDigitChar c = true := hdig c (by rw [hd]; simp)
        unfold goodHead
        simp [this]
  | jstr s => exact ⟨'"', _, rfl, by decide⟩
  | jarr items => exact ⟨'[', _, rfl, by decide⟩
  | jobj ms => exact ⟨'\x7b', _, rfl, by decide⟩

theorem headNotDigit_head (rest : List Char) (h : headNotDigit rest = true) :
    ∀ c, rest.head? = some c → isDigitChar c = false := by
  cases rest with
  | nil => exact fun c hc => by cases hc
  | cons x xs =>
    intro c hc
    have hx : x = c := by simpa using hc
    subst hx
    simpa [headNotDigit] using h

theorem parseValueF_succ (f : Nat) (s : List Char) (c : Char) (r : List Char)
    (h : skipWs s = c :: r) :
    parseValueF (f + 1) s = parseHead (parseValueF f) f c r := by
  rw [parseValueF, h]

theorem parseHead_null (pv : List Char → Option (JValue × List Char)) (f : Nat)
    (r2 : List Char) :
    parseHead pv f 'n' ('u' :: 'l' :: 'l' :: r2) = some (.jnull, r2) := rfl

theorem parseHead_true (pv : List Char → Option (JValue × List Char)) (f : Nat)
    (r2 : List Char) :
    parseHead pv f 't' ('r' :: 'u' :: 'e' :: r2) = some (.jbool true, r2) := rfl

theorem parseHead_false (pv : List Char → Option (JValue × List Char)) (f : Nat)
    (r2 : List Char) :
    parseHead pv f 'f' ('a' :: 'l' :: 's' :: 'e' :: r2) = some (.jbool false, r2) := rfl

theorem parseHead_str (pv : List Char → Option (JValue × List Char)) (f : Nat)
    (r : List Char) :
    parseHead pv f '"' r = (parseStrBody r).map fun p => (.jstr p.1, p.2) := rfl

theorem parseHead_neg (pv : List Char → Option (JValue × List Char)) (f : Nat)
    (r : List Char) :
    parseHead pv f '-' r = parseNumNeg r := rfl

theorem parseHead_arr (pv : List Char → Option (JValue × List Char)) (f : Nat)
    (r : List Char) :
    parseHead pv f '[' r = parseArrTail (parseItemsF pv f) r := rfl

theorem parseHead_obj (pv : List Char → Option (JValue × List Char)) (f : Nat)
    (r : List Char) :
    parseHead pv f '\x7b' r = parseObjTail (parseMembersF pv f) r := rfl

theorem parseHead_digit (pv : List Char → Option (JValue × List Char)) (f : Nat)
    (c : Char) (r : List Char) (hd : isDigitChar c = true) :
    parseHead pv f c r = parseNumPos c r := by
  unfold parseHead
  rw [if_neg (isDigit_ne c 'n' hd (by decide)), if_neg (isDigit_ne c 't' hd (by decide)),
    if_neg (isDigit_ne c 'f' hd (by decide)), if_neg (isDigit_ne c '"' hd (by decide)),
    if_neg (isDigit_ne c '-' hd (by decide)), if_neg (isDigit_ne c '[' hd (by decide)),
    if_neg (isDigit_ne c '\x7b' hd (by decide)), if_pos hd]

theorem parseArrTail_nil (pitems : List Char → Option (List JValue × List Char))
    (s r : List Char) (h : skipWs s = ']' :: r) :
    parseArrTail pitems s = some (.jarr [], r) := by
  unfold parseArrTail
  rw [h]
  rfl

theorem parseArrTail_cons (pitems : List Char → Option (List JValue × List Char))
    (s : List Char) (d : Char) (r : List Char) (h : skipWs s = d :: r)
    (hd : ¬(d = ']')) :
    parseArrTail pitems s = (pitems (d :: r)).map fun p => (.jarr p.1, p.2) := by
  unfold parseArrTail
  rw [h]
  show (if d = ']' then some (JValue.jarr [], r)
    else (pitems (d :: r)).map fun p : List JValue × List Char =>
      (JValue.jarr p.1, p.2)) = _
  rw [if_neg hd]

theorem parseObjTail_nil (pmembers : List Char → Option (List (List Char × JValue) × List Char))
    (s r : List Char) (h : skipWs s = '\x7d' :: r) :
    parseObjTail pmembers s = some (.jobj [], r) := by
  unfold parseObjTail
  rw [h]
  rfl

theorem parseObjTail_cons (pmembers : List Char → Option (List (List Char × JValue) × List Char))
    (s : List Char) (d : Char) (r : List Char) (h : skipWs s = d :: r)
    (hd : ¬(d = '\x7d')) :
    parseObjTail pmembers s = (pmembers (d :: r)).map fun p => (.jobj p.1, p.2) := by
  unfold parseObjTail
  rw [h]
  show (if d = '\x7d' then some (JValue.jobj [], r)
    else (pmembers (d :: r)).map fun p : List (List Char × JValue) × List Char =>
      (JValue.jobj p.1, p.2)) = _
  rw [if_neg hd]

theorem parseItemsF_succ_some (pv : List Char → Option (JValue × List Char))
    (fuel : Nat) (s : List Char) (v : JValue) (rest : List Char)
    (h : pv s = some (v, rest)) :
    parseItemsF pv (fuel + 1) s = parseItemsStep (parseItemsF pv fuel) v rest := by
  rw [parseItemsF, h]

theorem parseItemsStep_close (recur : List Char → Option (List JValue × List Char))
    (v : JValue) (rest r : List Char) (h : skipWs rest = ']' :: r) :
    parseItemsStep recur v rest = some ([v], r) := by
  unfold parseItemsStep
  rw [h]
  rfl

theorem parseItemsStep_comma (recur : List Char → Option (List JValue × List Char))
    (v : JValue) (rest r : List Char) (vs : List JValue) (r2 : List Char)
    (h : skipWs rest = ',' :: r) (h2 : recur r = some (vs, r2)) :
    parseItemsStep recur v rest = some (v :: vs, r2) := by
  unfold parseItemsStep
  rw [h]
  show (match recur r with
    | none => none
    | some (vs, r2) => some (v :: vs, r2)) = _
  rw [h2]

theorem parseMembersF_succ (pv : List Char → Option (JValue × List Char))
    (fuel : Nat) (s rest : List Char) (h : skipWs s = '"' :: rest) :
    parseMembersF pv (fuel + 1) s = parseMembersKey (parseMembersF pv fuel) pv rest := by
  rw [parseMembersF, h]
  rfl

theorem parseMembersKey_some (recur : List Char → Option (List (List Char × JValue) × List Char))
    (pv : List Char → Option (JValue × List Char)) (rest k rest2 rest3 : List Char)
    (h : parseStrBody rest = some (k, rest2)) (h2 : skipWs rest2 = ':' :: rest3) :
    parseMembersKey recur pv rest = parseMembersVal recur pv k rest3 := by
  unfold parseMembersKey
  rw [h]
  show (match skipWs rest2 with
    | ':' :: rest3 => parseMembersVal recur pv k rest3
    | _ => none) = _
  rw [h2]
  rfl

theorem parseMembersVal_some (recur : List Char → Option (List (List Char × JValue) × List Char))
    (pv : List Char → Option (JValue × List Char)) (k rest3 : List Char) (v : JValue)
    (rest4 : List Char) (h : pv rest3 = some (v, rest4)) :
    parseMembersVal recur pv k rest3 = parseMembersTail recur k v rest4 := by
  unfold parseMembersVal
  rw [h]

theorem parseMembersTail_close (recur : List Char → Option (List (List Char × JValue) × List Char))
    (k : List Char) (v : JValue) (rest4 r : List Char) (h : skipWs rest4 = '\x7d' :: r) :
    parseMembersTail recur k v rest4 = some ([(k, v)], r) := by
  unfold parseMembersTail
  rw [h]
  rfl

theorem parseMembersTail_comma (recur : List Char → Option (List (List Char × JValue) × List Char))
    (k : List Char) (v : JValue) (rest4 r : List Char) (ms : List (List Char × JValue))
    (r2 : List Char) (h : skipWs rest4 = ',' :: r) (h2 : recur r = some (ms, r2)) :
    parseMembersTail recur k v rest4 = some ((k, v) :: ms, r2) := by
  unfold parseMembersTail
  rw [h]
  show (match recur r with
    | none => none
    | some (ms, r2) => some ((k, v) :: ms, r2)) = _
  rw [h2]

theorem parseNumPos_spec (c : Char) (ds rest : List Char) (hc : isDigitChar c = true)
    (hds : ∀ x ∈ ds, isDigitChar x = true) (hrest : headNotDigit rest = true) :
    parseNumPos c (ds ++ rest) = some (.jnum ((digitsVal (c :: ds) : Nat) : Int), rest) := by
  unfold parseNumPos
  have hall : ∀ x ∈ c :: ds, isDigitChar x = true := by
    intro x hx
    rcases List.mem_cons.1 hx with rfl | hx2
    · exact hc
    · exact hds x hx2
  rw [show c :: (ds ++ rest) = (c :: ds) ++ rest from rfl,
    takeWhile_append_of_all (c :: ds) rest hall,
    takeWhile_eq_nil_of_head rest (headNotDigit_head rest hrest),
    dropWhile_append_of_all (c :: ds) rest hall,
    dropWhile_eq_self_of_head rest (headNotDigit_head rest hrest), List.append_nil]

theorem parseNumNeg_spec (ds rest : List Char) (hne : ds ≠ [])
    (hds : ∀ x ∈ ds, isDigitChar x = true) (hrest : headNotDigit rest = true) :
    parseNumNeg (ds ++ rest) = some (.jnum (-(digitsVal ds : Int)), rest) := by
  unfold parseNumNeg
  rw [takeWhile_append_of_all ds rest hds,
    takeWhile_eq_nil_of_head rest (headNotDigit_head rest hrest), List.append_nil,
    dropWhile_append_of_all ds rest hds,
    dropWhile_eq_self_of_head rest (headNotDigit_head rest hrest)]
  rw [if_neg hne]

theorem dumpsItems_head (x : JValue) (xs : List JValue) :
    ∃ c T, dumpsItems (x :: xs) = c :: T ∧ goodHead c = true := by
  obtain ⟨c, T, hcT, hg⟩ := dumps_head x
  cases xs with
  | nil => exact ⟨c, T, by simp [dumpsItems, hcT], hg⟩
  | cons y ys =>
    exact ⟨c, T ++ ',' :: ' ' :: dumpsItems (y :: ys), by simp [dumpsItems, hcT], hg⟩

theorem parse_items_aux (fv : Nat)
    (hpv : ∀ (v : JValue) (pre rest : List Char), sizeV v ≤ fv →
      (∀ c ∈ pre, jsonWs c = true) → headNotDigit rest = true →
      parseValueF fv (pre ++ dumps v ++ rest) = some (v, rest)) :
    ∀ (items : List JValue) (fuel : Nat) (pre rest : List Char),
      items ≠ [] → (∀ x ∈ items, sizeV x ≤ fv) → items.length ≤ fuel →
      (∀ c ∈ pre, jsonWs c = true) →
      parseItemsF (parseValueF fv) fuel (pre ++ (dumpsItems items ++ ']' :: rest)) =
        some (items, rest) := by
  intro items
  induction items with
  | nil => exact fun fuel pre rest hne _ _ _ => absurd rfl hne
  | cons x xs ih =>
    intro fuel pre rest _ hsz hlen hpre
    obtain ⟨f, rfl⟩ : ∃ f, fuel = f + 1 := ⟨fuel - 1, by simp at hlen; omega⟩
    cases xs with
    | nil =>
      rw [show pre ++ (dumpsItems [x] ++ ']' :: rest) = pre ++ dumps x ++ ']' :: rest from by
        simp [dumpsItems, List.append_assoc]]
      rw [parseItemsF_succ_some (parseValueF fv) f _ x (']' :: rest)
        (hpv x pre (']' :: rest) (hsz x (by simp)) hpre rfl)]
      exact parseItemsStep_close _ x (']' :: rest) rest
        (skipWs_cons_of_neg ']' rest (by decide))
    | cons y ys =>
      rw [show pre ++ (dumpsItems (x :: y :: ys) ++ ']' :: rest) =
          pre ++ dumps x ++ ',' :: ' ' :: (dumpsItems (y :: ys) ++ ']' :: rest) from by
        simp [dumpsItems, List.append_assoc]]
      rw [parseItemsF_succ_some (parseValueF fv) f _ x
        (',' :: ' ' :: (dumpsItems (y :: ys) ++ ']' :: rest))
        (hpv x pre _ (hsz x (by simp)) hpre rfl)]
      have hrec := ih f [' '] rest (by simp) (fun z hz => hsz z (by simp [hz]))
        (by simp at hlen ⊢; omega) (by intro c hc; simp at hc; subst hc; rfl)
      rw [List.singleton_append] at hrec
      exact parseItemsStep_comma _ x _ (' ' :: (dumpsItems (y :: ys) ++ ']' :: rest))
        (y :: ys) rest (skipWs_cons_of_neg ',' _ (by decide)) hrec

theorem dumpsMembers_head (k : List Char) (v : JValue)
    (tail : List (List Char × JValue)) :
    ∃ T, dumpsMembers ((k, v) :: tail) = '"' :: T := by
  cases tail with
  | nil =>
    exact ⟨(k.map escapeChar).flatten ++ '"' :: (':' :: (' ' :: dumps v)), by
      simp [dumpsMembers, dumpsStr, List.append_assoc]⟩
  | cons m2 tail2 =>
    exact ⟨(k.map escapeChar).flatten ++ '"' :: (':' :: (' ' :: (dumps v ++
      ',' :: (' ' :: dumpsMembers (m2 :: tail2))))), by
      simp [dumpsMembers, dumpsStr, List.append_assoc]⟩

theorem parse_members_aux (fv : Nat)
    (hpv : ∀ (v : JValue) (pre rest : List Char), sizeV v ≤ fv →
      (∀ c ∈ pre, jsonWs c = true) → headNotDigit rest = true →
      parseValueF fv (pre ++ dumps v ++ rest) = some (v, rest)) :
    ∀ (ms : List (List Char × JValue)) (fuel : Nat) (pre rest : List Char),
      ms ≠ [] → (∀ p ∈ ms, sizeV p.2 ≤ fv) → ms.length ≤ fuel →
      (∀ c ∈ pre, jsonWs c = true) →
      parseMembersF (parseValueF fv) fuel (pre ++ (dumpsMembers ms ++ '\x7d' :: rest)) =
        some (ms, rest) := by
  intro ms
  induction ms with
  | nil => exact fun fuel pre rest hne _ _ _ => absurd rfl hne
  | cons m tail ih =>
    obtain ⟨k, v⟩ := m
    intro fuel pre rest _ hsz hlen hpre
    obtain ⟨f, rfl⟩ : ∃ f, fuel = f + 1 := ⟨fuel - 1, by simp at hlen; omega⟩
    cases tail with
    | nil =>
      have hkey : skipWs (pre ++ (dumpsMembers [(k, v)] ++ '\x7d' :: rest)) =
          '"' :: ((k.map escapeChar).flatten ++ '"' ::
            (':' :: (' ' :: (dumps v ++ '\x7d' :: rest)))) := by
        rw [show pre ++ (dumpsMembers [(k, v)] ++ '\x7d' :: rest) =
            pre ++ '"' :: ((k.map escapeChar).flatten ++ '"' ::
              (':' :: (' ' :: (dumps v ++ '\x7d' :: rest)))) from by
          simp [dumpsMembers, dumpsStr, List.append_assoc]]
        rw [skipWs_append_allWs pre _ hpre]
        exact skipWs_cons_of_neg _ _ (by decide)
      rw [parseMembersF_succ (parseValueF fv) f _ _ hkey]
      rw [parseMembersKey_some _ _ _ k (':' :: (' ' :: (dumps v ++ '\x7d' :: rest)))
        (' ' :: (dumps v ++ '\x7d' :: rest))
        (parseStrBody_escape k _) (skipWs_cons_of_neg ':' _ (by decide))]
      have hv := hpv v [' '] ('\x7d' :: rest) (hsz (k, v) (by simp)) (by decide) rfl
      rw [List.singleton_append, List.cons_append] at hv
      rw [parseMembersVal_some _ _ k _ v ('\x7d' :: rest) hv]
      exact parseMembersTail_close _ k v ('\x7d' :: rest) rest
        (skipWs_cons_of_neg '\x7d' rest (by decide))
    | cons m2 tail2 =>
      have hkey : skipWs (pre ++ (dumpsMembers ((k, v) :: m2 :: tail2) ++ '\x7d' :: rest)) =
          '"' :: ((k.map escapeChar).flatten ++ '"' ::
            (':' :: (' ' :: (dumps v ++
              ',' :: (' ' :: (dumpsMembers (m2 :: tail2) ++ '\x7d' :: rest)))))) := by
        rw [show pre ++ (dumpsMembers ((k, v) :: m2 :: tail2) ++ '\x7d' :: rest) =
            pre ++ '"' :: ((k.map escapeChar).flatten ++ '"' ::
              (':' :: (' ' :: (dumps v ++
                ',' :: (' ' :: (dumpsMembers (m2 :: tail2) ++ '\x7d' :: rest)))))) from by
          simp [dumpsMembers, dumpsStr, List.append_assoc]]
        rw [skipWs_append_allWs pre _ hpre]
        exact skipWs_cons_of_neg _ _ (by decide)
      rw [parseMembersF_succ (parseValueF fv) f _ _ hkey]
      rw [parseMembersKey_some _ _ _ k
        (':' :: (' ' :: (dumps v ++ ',' :: (' ' :: (dumpsMembers (m2 :: tail2) ++
          '\x7d' :: rest)))))
        (' ' :: (dumps v ++ ',' :: (' ' :: (dumpsMembers (m2 :: tail2) ++ '\x7d' :: rest))))
        (parseStrBody_escape k _) (skipWs_cons_of_neg ':' _ (by decide))]
      have hv := hpv v [' ']
        (',' :: (' ' :: (dumpsMembers (m2 :: tail2) ++ '\x7d' :: rest)))
        (hsz (k, v) (by simp)) (by decide) rfl
      rw [List.singleton_append, List.cons_append] at hv
      rw [parseMembersVal_some _ _ k _ v
        (',' :: (' ' :: (dumpsMembers (m2 :: tail2) ++ '\x7d' :: rest))) hv]
      have hrec := ih f [' '] rest (by simp) (fun p hp => hsz p (by simp [hp]))
        (by simp at hlen ⊢; omega) (by intro c hc; simp at hc; subst hc; rfl)
      rw [List.singleton_append] at hrec
      exact parseMembersTail_comma _ k v _
        (' ' :: (dumpsMembers (m2 :: tail2) ++ '\x7d' :: rest)) (m2 :: tail2) rest
        (skipWs_cons_of_neg ',' _ (by decide)) hrec

theorem parse_dumps_val : ∀ (fv : Nat) (v : JValue) (pre rest : List Char),
    sizeV v ≤ fv → (∀ c ∈ pre, jsonWs c = true) → headNotDigit rest = true →
    parseValueF fv (pre ++ dumps v ++ rest) = some (v, rest) := by
  intro fv
  induction fv with
  | zero =>
    intro v pre rest hs _ _
    exact absurd hs (by have := one_le_sizeV v; omega)
  | succ f ihf =>
    intro v pre rest hs hpre hrest
    cases v with
    | jnull =>
      have hskip : skipWs (pre ++ dumps JValue.jnull ++ rest) =
          'n' :: ('u' :: 'l' :: 'l' :: rest) := by
        rw [List.append_assoc, skipWs_append_allWs pre _ hpre]
        exact skipWs_cons_of_neg _ _ (by decide)
      rw [parseValueF_succ f _ 'n' _ hskip, parseHead_null]
    | jbool b =>
      cases b with
      | true =>
        have hskip : skipWs (pre ++ dumps (JValue.jbool true) ++ rest) =
            't' :: ('r' :: 'u' :: 'e' :: rest) := by
          rw [List.append_assoc, skipWs_append_allWs pre _ hpre]
          exact skipWs_cons_of_neg _ _ (by decide)
        rw [parseValueF_succ f _ 't' _ hskip, parseHead_true]
      | false =>
        have hskip : skipWs (pre ++ dumps (JValue.jbool false) ++ rest) =
            'f' :: ('a' :: 'l' :: 's' :: 'e' :: rest) := by
          rw [List.append_assoc, skipWs_append_allWs pre _ hpre]
          exact skipWs_cons_of_neg _ _ (by decide)
        rw [parseValueF_succ f _ 'f' _ hskip, parseHead_false]
    | jnum n =>
      by_cases hneg : n < 0
      · have hd : dumps (JValue.jnum n) = '-' :: natDigits n.natAbs := by
          show intChars n = _
          unfold intChars
          rw [if_pos hneg]
        obtain ⟨hne, hdig, hval⟩ := natDigits_spec n.natAbs
        have hskip : skipWs (pre ++ dumps (JValue.jnum n) ++ rest) =
            '-' :: (natDigits n.natAbs ++ rest) := by
          rw [hd, List.append_assoc, List.cons_append, skipWs_append_allWs pre _ hpre]
          exact skipWs_cons_of_neg _ _ (by decide)
        rw [parseValueF_succ f _ '-' _ hskip, parseHead_neg,
          parseNumNeg_spec (natDigits n.natAbs) rest hne hdig hrest, hval]
        have he : -((n.natAbs : Nat) : Int) = n := by omega
        rw [he]
      · obtain ⟨hne, hdig, hval⟩ := natDigits_spec n.natAbs
        cases hD : natDigits n.natAbs with
        | nil => exact absurd hD hne
        | cons c ds =>
          have hc : isDigitChar c = true := hdig c (by rw [hD]; simp)
          have hd : dumps (JValue.jnum n) = c :: ds := by
            show intChars n = _
            unfold intChars
            rw [if_neg hneg, hD]
          have hskip : skipWs (pre ++ dumps (JValue.jnum n) ++ rest) =
              c :: (ds ++ rest) := by
            rw [hd, List.append_assoc, List.cons_append, skipWs_append_allWs pre _ hpre]
            exact skipWs_cons_of_neg _ _ (isDigit_not_jsonWs c hc)
          have hdds : ∀ x ∈ ds, isDigitChar x = true := by
            intro x hx
            exact hdig x (by rw [hD]; simp [hx])
          rw [parseValueF_succ f _ c _ hskip, parseHead_digit _ f c _ hc,
            parseNumPos_spec c ds rest hc hdds hrest]
          have hval2 : digitsVal (c :: ds) = n.natAbs := by rw [← hD, hval]
          rw [hval2]
          have he : ((n.natAbs : Nat) : Int) = n := by omega
          rw [he]
    | jstr s =>
      have hskip : skipWs (pre ++ dumps (JValue.jstr s) ++ rest) =
          '"' :: ((s.map escapeChar).flatten ++ '"' :: rest) := by
        rw [List.append_assoc, skipWs_append_allWs pre _ hpre]
        rw [show dumps (JValue.jstr s) ++ rest =
            '"' :: ((s.map escapeChar).flatten ++ '"' :: rest) from by
          show dumpsStr s ++ rest = _
          simp [dumpsStr, List.append_assoc]]
        exact skipWs_cons_of_neg _ _ (by decide)
      rw [parseValueF_succ f _ '"' _ hskip, parseHead_str, parseStrBody_escape s rest]
      rfl
    | jarr items =>
      cases items with
      | nil =>
        have hskip : skipWs (pre ++ dumps (JValue.jarr []) ++ rest) =
            '[' :: (']' :: rest) := by
          rw [List.append_assoc, skipWs_append_allWs pre _ hpre]
          exact skipWs_cons_of_neg _ _ (by decide)
        rw [parseValueF_succ f _ '[' _ hskip, parseHead_arr,
          parseArrTail_nil _ _ rest (skipWs_cons_of_neg ']' rest (by decide))]
      | cons x xs =>
        have hsz : sizeItems (x :: xs) ≤ f := by
          simp only [sizeV] at hs
          omega
        have hskip : skipWs (pre ++ dumps (JValue.jarr (x :: xs)) ++ rest) =
            '[' :: (dumpsItems (x :: xs) ++ ']' :: rest) := by
          rw [List.append_assoc, skipWs_append_allWs pre _ hpre]
          rw [show dumps (JValue.jarr (x :: xs)) ++ rest =
              '[' :: (dumpsItems (x :: xs) ++ ']' :: rest) from by
            show ('[' :: dumpsItems (x :: xs) ++ [']']) ++ rest = _
            simp [List.append_assoc]]
          exact skipWs_cons_of_neg _ _ (by decide)
        obtain ⟨c, T, hcT, hg⟩ := dumpsItems_head x xs
        have hd1 : skipWs (dumpsItems (x :: xs) ++ ']' :: rest) =
            c :: (T ++ ']' :: rest) := by
          rw [hcT, List.cons_append]
          exact skipWs_cons_of_neg _ _ (goodHead_not_ws c hg)
        have haux := parse_items_aux f ihf (x :: xs) f [] rest (by simp)
          (fun z hz => le_trans (sizeV_mem_items (x :: xs) z hz) hsz)
          (le_trans (length_le_sizeItems (x :: xs)) hsz) (by simp)
        rw [List.nil_append] at haux
        rw [parseValueF_succ f _ '[' _ hskip, parseHead_arr,
          parseArrTail_cons _ _ c (T ++ ']' :: rest) hd1 ((goodHead_ne c hg).1)]
        rw [show c :: (T ++ ']' :: rest) = dumpsItems (x :: xs) ++ ']' :: rest from by
          rw [hcT, List.cons_append]]
        rw [haux]
        rfl
    | jobj ms =>
      cases ms with
      | nil =>
        have hskip : skipWs (pre ++ dumps (JValue.jobj []) ++ rest) =
            '\x7b' :: ('\x7d' :: rest) := by
          rw [List.append_assoc, skipWs_append_allWs pre _ hpre]
          exact skipWs_cons_of_neg _ _ (by decide)
        rw [parseValueF_succ f _ '\x7b' _ hskip, parseHead_obj,
          parseObjTail_nil _ _ rest (skipWs_cons_of_neg '\x7d' rest (by decide))]
      | cons m tail =>
        obtain ⟨k, v⟩ := m
        have hsz : sizeMembers ((k, v) :: tail) ≤ f := by
          simp only [sizeV] at hs
          omega
        have hskip : skipWs (pre ++ dumps (JValue.jobj ((k, v) :: tail)) ++ rest) =
            '\x7b' :: (dumpsMembers ((k, v) :: tail) ++ '\x7d' :: rest) := by
          rw [List.append_assoc, skipWs_append_allWs pre _ hpre]
          rw [show dumps (JValue.jobj ((k, v) :: tail)) ++ rest =
              '\x7b' :: (dumpsMembers ((k, v) :: tail) ++ '\x7d' :: rest) from by
            show ('\x7b' :: dumpsMembers ((k, v) :: tail) ++ ['\x7d']) ++ rest = _
            simp [List.append_assoc]]
          exact skipWs_cons_of_neg _ _ (by decide)
        obtain ⟨T, hT⟩ := dumpsMembers_head k v tail
        have hd1 : skipWs (dumpsMembers ((k, v) :: tail) ++ '\x7d' :: rest) =
            '"' :: (T ++ '\x7d' :: rest) := by
          rw [hT, List.cons_append]
          exact skipWs_cons_of_neg _ _ (by decide)
        have haux := parse_members_aux f ihf ((k, v) :: tail) f [] rest (by simp)
          (fun p hp => le_trans (sizeV_mem_members ((k, v) :: tail) p hp) hsz)
          (le_trans (length_le_sizeMembers ((k, v) :: tail)) hsz) (by simp)
        rw [List.nil_append] at haux
        rw [parseValueF_succ f _ '\x7b' _ hskip, parseHead_obj,
          parseObjTail_cons _ _ '"' (T ++ '\x7d' :: rest) hd1 (by decide)]
        rw [show '"' :: (T ++ '\x7d' :: rest) = dumpsMembers ((k, v) :: tail) ++
            '\x7d' :: rest from by
          rw [hT, List.cons_append]]
        rw [haux]
        rfl

mutual

theorem sizeV_le_dumps_len : ∀ v : JValue, sizeV v ≤ (dumps v).length
  | .jnull => by simp [sizeV, dumps]
  | .jbool b => by cases b <;> simp [sizeV, dumps]
  | .jnum n => by
    have h := (natDigits_spec n.natAbs).1
    have hp : 0 < (natDigits n.natAbs).length := List.length_pos.2 h
    show sizeV (JValue.jnum n) ≤ (intChars n).length
    unfold intChars
    split_ifs
    · simp only [sizeV, List.length_cons]
      omega
    · simp only [sizeV]
      omega
  | .jstr s => by simp [sizeV, dumps, dumpsStr]
  | .jarr items => by
    have h := sizeItems_le_dumps items
    simp only [sizeV, dumps, List.length_cons, List.length_append]
    omega
  | .jobj ms => by
    have h := sizeMembers_le_dumps ms
    simp only [sizeV, dumps, List.length_cons, List.length_append]
    omega

theorem sizeItems_le_dumps : ∀ items : List JValue,
    sizeItems items ≤ (dumpsItems items).length + 1
  | [] => by simp [sizeItems, dumpsItems]
  | [x] => by
    have := sizeV_le_dumps_len x
    simp only [sizeItems, dumpsItems]
    omega
  | x :: y :: ys => by
    have h1 := sizeV_le_dumps_len x
    have h2 := sizeItems_le_dumps (y :: ys)
    show sizeV x + sizeItems (y :: ys) + 1 ≤
      (dumps x ++ ',' :: ' ' :: dumpsItems (y :: ys)).length + 1
    simp only [List.length_append, List.length_cons]
    omega

theorem sizeMembers_le_dumps : ∀ ms : List (List Char × JValue),
    sizeMembers ms ≤ (dumpsMembers ms).length + 1
  | [] => by simp [sizeMembers, dumpsMembers]
  | [(k, v)] => by
    have := sizeV_le_dumps_len v
    simp only [sizeMembers, dumpsMembers, List.length_append, List.length_cons]
    omega
  | (k, v) :: m :: ms => by
    have h1 := sizeV_le_dumps_len v
    have h2 := sizeMembers_le_dumps (m :: ms)
    show sizeV v + sizeMembers (m :: ms) + 1 ≤
      (dumpsStr k ++ ':' :: ' ' :: dumps v ++ ',' :: ' ' :: dumpsMembers (m :: ms)).length + 1
    simp only [List.length_append, List.length_cons]
    omega

end

theorem loads_dumps (v : JValue) : loads (dumps v) = some v := by
  have hsz : sizeV v ≤ (dumps v).length + 1 :=
    le_trans (sizeV_le_dumps_len v) (by omega)
  have h := parse_dumps_val ((dumps v).length + 1) v [] [] hsz (by simp) rfl
  rw [List.nil_append, List.append_nil] at h
  unfold loads
  rw [h]
  rfl

theorem hexDigit_ne_nl : ∀ m, hexDigit m ≠ '\n'
  | 0 => by decide
  | 1 => by decide
  | 2 => by decide
  | 3 => by decide
  | 4 => by decide
  | 5 => by decide
  | 6 => by decide
  | 7 => by decide
  | 8 => by decide
  | 9 => by decide
  | 10 => by decide
  | 11 => by decide
  | 12 => by decide
  | 13 => by decide
  | 14 => by decide
  | n + 15 => by
    show ('f' : Char) ≠ '\n'
    decide

theorem escapeChar_no_nl (c : Char) : '\n' ∉ escapeChar c := by
  unfold escapeChar
  split_ifs with h1 h2 h3 h4 h5 h6 h7 h8
  · decide
  · decide
  · decide
  · decide
  · decide
  · decide
  · decide
  · intro hm
    simp only [List.mem_cons, List.not_mem_nil, or_false] at hm
    rcases hm with h | h | h | h | h | h
    · exact absurd h (by decide)
    · exact absurd h (by decide)
    · exact absurd h (by decide)
    · exact absurd h (by decide)
    · exact (hexDigit_ne_nl _ h.symm).elim
    · exact (hexDigit_ne_nl _ h.symm).elim
  · intro hm
    simp only [List.mem_cons, List.not_mem_nil, or_false] at hm
    exact h3 hm.symm

theorem dumpsStr_no_nl (s : List Char) : '\n' ∉ dumpsStr s := by
  intro hm
  unfold dumpsStr at hm
  simp only [List.cons_append, List.mem_cons, List.mem_append] at hm
  rcases hm with h | h | h
  · exact absurd h (by decide)
  · obtain ⟨l, hl, hc⟩ := List.mem_flatten.1 h
    obtain ⟨c, _, hce⟩ := List.mem_map.1 hl
    exact escapeChar_no_nl c (hce ▸ hc)
  · simp only [List.mem_cons, List.not_mem_nil, or_false] at h
    exact absurd h (by decide)

mutual

theorem dumps_no_nl : ∀ v : JValue, '\n' ∉ dumps v
  | .jnull => by decide
  | .jbool b => by cases b <;> decide
  | .jnum n => by
    intro hm
    have hdig := (natDigits_spec n.natAbs).2.1
    have hmem : '\n' ∈ natDigits n.natAbs ∨ '\n' = '-' := by
      show '\n' ∈ natDigits n.natAbs ∨ '\n' = '-'
      have : dumps (JValue.jnum n) = intChars n := rfl
      rw [this] at hm
      unfold intChars at hm
      split_ifs at hm
      · simp only [List.mem_cons] at hm
        rcases hm with h | h
        · exact Or.inr h
        · exact Or.inl h
      · exact Or.inl hm
    rcases hmem with h | h
    · exact absurd (hdig '\n' h) (by decide)
    · exact absurd h (by decide)
  | .jstr s => dumpsStr_no_nl s
  | .jarr items => by
    intro hm
    have h2 := dumpsItems_no_nl items
    simp only [dumps, List.cons_append, List.mem_cons, List.mem_append] at hm
    rcases hm with h | h | h
    · exact absurd h (by decide)
    · exact h2 h
    · simp only [List.mem_cons, List.not_mem_nil, or_false] at h
      exact absurd h (by decide)
  | .jobj ms => by
    intro hm
    have h2 := dumpsMembers_no_nl ms
    simp only [dumps, List.cons_append, List.mem_cons, List.mem_append] at hm
    rcases hm with h | h | h
    · exact absurd h (by decide)
    · exact h2 h
    · simp only [List.mem_cons, List.not_mem_nil, or_false] at h
      exact absurd h (by decide)

theorem dumpsItems_no_nl : ∀ items : List JValue, '\n' ∉ dumpsItems items
  | [] => by simp [dumpsItems]
  | [x] => by
    intro hm
    exact dumps_no_nl x (by simpa [dumpsItems] using hm)
  | x :: y :: ys => by
    intro hm
    have h1 := dumps_no_nl x
    have h2 := dumpsItems_no_nl (y :: ys)
    have hm2 : '\n' ∈ dumps x ++ ',' :: ' ' :: dumpsItems (y :: ys) := hm
    simp only [List.mem_append, List.mem_cons] at hm2
    rcases hm2 with h | h | h | h
    · exact h1 h
    · exact absurd h (by decide)
    · exact absurd h (by decide)
    · exact h2 h

theorem dumpsMembers_no_nl : ∀ ms : List (List Char × JValue), '\n' ∉ dumpsMembers ms
  | [] => by simp [dumpsMembers]
  | [(k, v)] => by
    intro hm
    have h1 := dumpsStr_no_nl k
    have h2 := dumps_no_nl v
    have hm2 : '\n' ∈ dumpsStr k ++ ':' :: ' ' :: dumps v := hm
    simp only [List.mem_append, List.mem_cons] at hm2
    rcases hm2 with h | h | h | h
    · exact h1 h
    · exact absurd h (by decide)
    · exact absurd h (by decide)
    · exact h2 h
  | (k, v) :: m :: ms => by
    intro hm
    have h1 := dumpsStr_no_nl k
    have h2 := dumps_no_nl v
    have h3 := dumpsMembers_no_nl (m :: ms)
    have hm2 : '\n' ∈ dumpsStr k ++ ':' :: ' ' :: dumps v ++
        ',' :: ' ' :: dumpsMembers (m :: ms) := hm
    simp only [List.mem_append, List.mem_cons] at hm2
    rcases hm2 with (h | h | h | h) | h | h | h
    · exact h1 h
    · exact absurd h (by decide)
    · exact absurd h (by decide)
    · exact h2 h
    · exact absurd h (by decide)
    · exact absurd h (by decide)
    · exact h3 h

end

theorem goodHead_not_pyws (c : Char) (h : goodHead c = true) : pyWsChar c = false := by
  unfold goodHead at h
  simp only [Bool.or_eq_true, decide_eq_true_eq] at h
  rcases h with ((((((rfl | rfl) | rfl) | rfl) | rfl) | rfl) | rfl) | hd
  · decide
  · decide
  · decide
  · decide
  · decide
  · decide
  · decide
  · exact isDigit_not_pyWs c hd

theorem dumps_last : ∀ v : JValue, ∃ T c, dumps v = T ++ [c] ∧ pyWsChar c = false := by
  intro v
  cases v with
  | jnull => exact ⟨['n', 'u', 'l'], 'l', rfl, by decide⟩
  | jbool b =>
    cases b with
    | false => exact ⟨['f', 'a', 'l', 's'], 'e', rfl, by decide⟩
    | true => exact ⟨['t', 'r', 'u'], 'e', rfl, by decide⟩
  | jnum n =>
    obtain ⟨hne, hdig, _⟩ := natDigits_spec n.natAbs
    rcases List.eq_nil_or_concat (natDigits n.natAbs) with hD | ⟨T, c, hD⟩
    · exact absurd hD hne
    · have hc : isDigitChar c = true := hdig c (by rw [hD]; simp)
      have hnw : pyWsChar c = false := isDigit_not_pyWs c hc
      rw [show dumps (JValue.jnum n) = intChars n from rfl]
      unfold intChars
      split_ifs
      · exact ⟨'-' :: T, c, by rw [hD, List.concat_eq_append, List.cons_append], hnw⟩
      · exact ⟨T, c, by rw [hD, List.concat_eq_append], hnw⟩
  | jstr s =>
    exact ⟨'"' :: (s.map escapeChar).flatten, '"', by
      show dumpsStr s = _
      simp [dumpsStr], by decide⟩
  | jarr items =>
    exact ⟨'[' :: dumpsItems items, ']', by
      show '[' :: dumpsItems items ++ [']'] = _
      simp, by decide⟩
  | jobj ms =>
    exact ⟨'\x7b' :: dumpsMembers ms, '\x7d', by
      show '\x7b' :: dumpsMembers ms ++ ['\x7d'] = _
      simp, by decide⟩

theorem dumps_pyStrip_frame (v : JValue) :
    pyStripList (dumps v ++ ['\n', '\n']) = dumps v := by
  obtain ⟨c, T, hcT, hg⟩ := dumps_head v
  obtain ⟨T2, c2, hT2, hws2⟩ := dumps_last v
  unfold pyStripList
  have h1 : (dumps v ++ ['\n', '\n']).dropWhile pyWsChar = dumps v ++ ['\n', '\n'] := by
    apply dropWhile_eq_self_of_head
    intro d hd
    rw [hcT, List.cons_append] at hd
    simp only [List.head?_cons, Option.some_inj] at hd
    rw [← hd]
    exact goodHead_not_pyws c hg
  rw [h1, List.reverse_append]
  have h2 : (['\n', '\n'].reverse ++ (dumps v).reverse).dropWhile pyWsChar =
      (dumps v).reverse.dropWhile pyWsChar := by
    show List.dropWhile pyWsChar ('\n' :: '\n' :: (dumps v).reverse) = _
    rw [List.dropWhile_cons_of_pos (by decide), List.dropWhile_cons_of_pos (by decide)]
  rw [h2]
  have h3 : (dumps v).reverse.dropWhile pyWsChar = (dumps v).reverse := by
    apply dropWhile_eq_self_of_head
    intro d hd
    rw [hT2, List.reverse_append] at hd
    simp only [List.reverse_cons, List.reverse_nil, List.nil_append,
      List.singleton_append, List.head?_cons, Option.some_inj] at hd
    rw [← hd]
    exact hws2
  rw [h3, List.reverse_reverse]

theorem hasTerm_cons_of_head_ne (c : Char) (l : List Char) (hc : ¬(c = '\n')) :
    hasTerm (c :: l) = hasTerm l := by
  cases l with
  | nil => rfl
  | cons c2 l2 =>
    show ((c = '\n' && c2 = '\n') || hasTerm (c2 :: l2)) = hasTerm (c2 :: l2)
    simp [hc]

theorem hasTerm_append_no_nl : ∀ (P X : List Char), (∀ c ∈ P, ¬(c = '\n')) →
    hasTerm (P ++ X) = hasTerm X
  | [], X, _ => rfl
  | p :: P, X, h => by
    rw [List.cons_append, hasTerm_cons_of_head_ne p _ (h p (by simp)),
      hasTerm_append_no_nl P X (fun c hc => h c (by simp [hc]))]

theorem hasTerm_mono : ∀ (Q R : List Char), hasTerm Q = true → hasTerm (Q ++ R) = true
  | c1 :: c2 :: rest, R, h => by
    rw [show hasTerm (c1 :: c2 :: rest) = ((c1 = '\n' && c2 = '\n') || hasTerm (c2 :: rest))
      from rfl] at h
    rw [List.cons_append, List.cons_append,
      show hasTerm (c1 :: c2 :: (rest ++ R)) =
        ((c1 = '\n' && c2 = '\n') || hasTerm (c2 :: (rest ++ R))) from rfl]
    rcases Bool.or_eq_true_iff.1 h with h1 | h2
    · rw [h1, Bool.true_or]
    · have := hasTerm_mono (c2 :: rest) R h2
      rw [List.cons_append] at this
      rw [this, Bool.or_true]
  | [], _, h => by cases h
  | [c], _, h => by
    rw [show hasTerm [c] = false from rfl] at h
    cases h

theorem recvAccum_frame : ∀ (chunks : List (List Char)) (data P : List Char),
    data ++ chunks.flatten = P ++ ['\n', '\n'] → (∀ c ∈ P, ¬(c = '\n')) →
    recvAccum chunks data = P ++ ['\n', '\n']
  | [], data, P, heq, _ => by
    rw [List.flatten_nil, List.append_nil] at heq
    rw [show recvAccum [] data = data from rfl, heq]
  | chunk :: rest, data, P, heq, hP => by
    rw [show recvAccum (chunk :: rest) data =
      (if hasTerm (data ++ chunk) then data ++ chunk else recvAccum rest (data ++ chunk))
      from rfl]
    rw [List.flatten_cons] at heq
    by_cases hterm : hasTerm (data ++ chunk) = true
    · rw [if_pos hterm]
      rcases List.eq_nil_or_concat rest.flatten with hrf | ⟨S, sl, hrf⟩
      · rw [hrf, List.append_nil] at heq
        exact heq
      · rw [hrf, List.concat_eq_append] at heq
        have heq2 : ((data ++ chunk) ++ S) ++ [sl] = (P ++ ['\n']) ++ ['\n'] := by
          simp only [List.append_assoc, List.singleton_append] at heq ⊢
          exact heq
        obtain ⟨h1, _⟩ := List.append_inj' heq2 rfl
        have hmono : hasTerm ((data ++ chunk) ++ S) = true := hasTerm_mono _ S hterm
        rw [h1, hasTerm_append_no_nl P ['\n'] hP] at hmono
        exact absurd hmono (by decide)
    · rw [if_neg hterm]
      apply recvAccum_frame rest (data ++ chunk) P _ hP
      rw [List.append_assoc]
      exact heq

theorem recvAccum_result : ∀ (chunks : List (List Char)) (data : List Char),
    hasTerm (recvAccum chunks data) = true ∨
      recvAccum chunks data = data ++ chunks.flatten
  | [], data => by
    right
    simp [recvAccum]
  | chunk :: rest, data => by
    rw [show recvAccum (chunk :: rest) data =
      (if hasTerm (data ++ chunk) then data ++ chunk else recvAccum rest (data ++ chunk))
      from rfl]
    by_cases hterm : hasTerm (data ++ chunk) = true
    · rw [if_pos hterm]
      exact Or.inl hterm
    · rw [if_neg hterm]
      rcases recvAccum_result rest (data ++ chunk) with hl | hr
      · exact Or.inl hl
      · right
        rw [hr, List.flatten_cons, List.append_assoc]

theorem deframe_frame (v : JValue) (chunks : List (List Char))
    (h : chunks.flatten = dumps v ++ ['\n', '\n']) :
    deframe chunks = some (dumps v ++ ['\n', '\n']) := by
  have hr : recvAccum chunks [] = dumps v ++ ['\n', '\n'] := by
    apply recvAccum_frame chunks [] (dumps v) (by rw [List.nil_append]; exact h)
    intro c hc heq
    exact dumps_no_nl v (heq ▸ hc)
  unfold deframe
  rw [hr]
  rw [if_neg (by simp)]

theorem deframe_result (chunks : List (List Char)) (d : List Char)
    (h : deframe chunks = some d) :
    hasTerm d = true ∨ d = chunks.flatten := by
  unfold deframe at h
  split_ifs at h with h0
  have hd : recvAccum chunks [] = d := Option.some_inj.1 h
  rcases recvAccum_result chunks [] with hl | hr
  · left
    rw [← hd]
    exact hl
  · right
    rw [← hd, hr, List.nil_append]

/-- C5 (corrected): framing round-trip.  For every modelled JSON value `v`:
the serialized payload `dumps v` contains no newline, hence never contains the
two-character terminator; if the received chunks concatenate to the full frame
`dumps v ++ "\n\n"`, the accumulation loop hands the parser exactly that
frame, and parsing the stripped buffer returns a value equal to `v`.  The
spec’s final conjunct is corrected: deframing yields a message once the
terminator has been observed OR when the peer closes the connection, in which
case the whole partial buffer (without any terminator) is flushed to the
parser — see `C5_counterexample`. -/
theorem C5_framing_roundtrip (v : JValue) :
    ('\n' ∉ dumps v ∧ hasTerm (dumps v) = false) ∧
    (∀ chunks : List (List Char), chunks.flatten = dumps v ++ ['\n', '\n'] →
      deframe chunks = some (dumps v ++ ['\n', '\n'])) ∧
    loads (pyStripList (dumps v ++ ['\n', '\n'])) = some v ∧
    (∀ (chunks : List (List Char)) (d : List Char), deframe chunks = some d →
      hasTerm d = true ∨ d = chunks.flatten) := by
  have hnl : ∀ c ∈ dumps v, ¬(c = '\n') := fun c hc he => dumps_no_nl v (he ▸ hc)
  refine ⟨⟨dumps_no_nl v, ?_⟩, fun chunks hc => deframe_frame v chunks hc, ?_,
    fun chunks d hd => deframe_result chunks d hd⟩
  · have h := hasTerm_append_no_nl (dumps v) [] hnl
    rw [List.append_nil] at h
    rw [h]
    rfl
  · rw [dumps_pyStrip_frame v]
    exact loads_dumps v

/-- C5 counterexample: when the peer closes the connection before sending any
terminator, `_handle_request`’s receive loop exits on the empty `recv` and the
partial buffer — which contains no terminator — is flushed to the parser, so a
message is deframed without the terminator ever being observed, contradicting
“deframing yields a message only once the terminator has been observed”. -/
theorem C5_counterexample :
    deframe [dumps pingReq] = some (dumps pingReq) ∧
    hasTerm (dumps pingReq) = false ∧
    loads (pyStripList (dumps pingReq)) = some pingReq := ⟨rfl, rfl, rfl⟩

/-- Witness for `C5_framing_roundtrip` at the ping request, with the frame
delivered in one chunk. -/
theorem C5_witness :
    deframe [dumps pingReq ++ ['\n', '\n']] = some (dumps pingReq ++ ['\n', '\n']) ∧
    loads (pyStripList (dumps pingReq ++ ['\n', '\n'])) = some pingReq :=
  ⟨(C5_framing_roundtrip pingReq).2.1 [dumps pingReq ++ ['\n', '\n']] (by simp),
    (C5_framing_roundtrip pingReq).2.2.1⟩

end BashBuddy
